import Mathlib

/-!
Verification development for the Xcel MR Application pole-data pipeline.

The Python sources are shallowly embedded: Python strings are modelled as
lists of character code points (`PyStr := List Nat`), restricted to the
ASCII behaviour of the Python string methods involved (`str.strip`,
`str.lower`, `str.upper`, `str.isdigit`, `str.split`, substring tests,
and the regular expressions used by the sources, which only involve the
ASCII classes `\d`, `[A-Za-z]`, `\b`, `\s`).  Numeric values flowing
through `pandas.to_numeric` / `float(...)` are modelled as `ℚ` (the
claims under study never depend on binary floating-point artefacts).
Fallible operations return `Option`.
-/

attribute [local semireducible] Rat.add Rat.mul Rat.inv Rat.sub

/-- Python strings as lists of code points (ASCII fragment). -/
abbrev PyStr := List Nat

/-- Code points of a Lean string literal, used to write concrete inputs. -/
def strCodes (s : String) : PyStr := s.toList.map Char.toNat

/-- ASCII decimal digit, the `\d` class / `str.isdigit` on ASCII. -/
def isDigitN (c : Nat) : Bool := 48 ≤ c && c ≤ 57

/-- ASCII letter, the `[A-Za-z]` class. -/
def isAlphaN (c : Nat) : Bool := (65 ≤ c && c ≤ 90) || (97 ≤ c && c ≤ 122)

/-- Python `str.isspace` characters (`\s`): space, \t, \n, \v, \f, \r. -/
def isWsN (c : Nat) : Bool := c == 32 || c == 9 || c == 10 || c == 11 || c == 12 || c == 13

/-- Python `str.upper` on one ASCII character. -/
def upN (c : Nat) : Nat := if 97 ≤ c ∧ c ≤ 122 then c - 32 else c

/-- Python `str.lower` on one ASCII character. -/
def lowN (c : Nat) : Nat := if 65 ≤ c ∧ c ≤ 90 then c + 32 else c

/-- Python `str.upper`. -/
def pyUpper (s : PyStr) : PyStr := s.map upN

/-- Python `str.lower`. -/
def pyLower (s : PyStr) : PyStr := s.map lowN

/-- Python `str.strip()`: drop leading and trailing whitespace. -/
def pyStrip (s : PyStr) : PyStr :=
  ((s.dropWhile isWsN).reverse.dropWhile isWsN).reverse

/-- Substring test, Python's `needle in haystack`. -/
def pyContains (haystack needle : PyStr) : Bool := decide (needle <:+: haystack)

/-- Split on every separator character, keeping empty pieces — the behaviour
of Python `str.split(sep)` for a one-character separator class. -/
def splitAll (sep : Nat → Bool) : PyStr → List PyStr
  | [] => [[]]
  | c :: cs =>
    if sep c then [] :: splitAll sep cs
    else (splitAll sep cs).modifyHead (fun g => c :: g)

/-- Python `str.split()` (no argument): split on whitespace runs, dropping
empty pieces. -/
def pySplitWs (s : PyStr) : List PyStr :=
  (splitAll isWsN s).filter (fun g => !g.isEmpty)

/-- Join a token list with single spaces, Python `' '.join(parts)`. -/
def joinSpace : List PyStr → PyStr
  | [] => []
  | [t] => t
  | t :: ts => t ++ 32 :: joinSpace ts

/-- Render `int(digit-string)` back to decimal: strip leading zeros, an
all-zero string becoming `"0"`.  (`str(int(ds))` for an ASCII digit run.) -/
def canonDigits (ds : PyStr) : PyStr :=
  if (ds.dropWhile (fun c => c == 48)).isEmpty then [48]
  else ds.dropWhile (fun c => c == 48)

namespace Utils

/-- The anchored regex `^0*(\d+)(?:\.0+)?([A-Za-z]*)$` from
`Utils.normalize_scid` (src/src/core/utils.py:47): on success the result is
`str(int(digits)) + letters.upper()`. -/
def simpleMatch (s : PyStr) : Option PyStr :=
  if (s.takeWhile isDigitN).isEmpty then none
  else if (s.dropWhile isDigitN).head? = some 46 then
    if ((s.dropWhile isDigitN).tail.takeWhile (fun c => c == 48)).isEmpty then none
    else if ((s.dropWhile isDigitN).tail.dropWhile (fun c => c == 48)).all isAlphaN then
      some (canonDigits (s.takeWhile isDigitN)
        ++ pyUpper ((s.dropWhile isDigitN).tail.dropWhile (fun c => c == 48)))
    else none
  else if (s.dropWhile isDigitN).all isAlphaN then
    some (canonDigits (s.takeWhile isDigitN) ++ pyUpper (s.dropWhile isDigitN))
  else none

/-- The anchored regex `^([A-Za-z]*)0*(\d+)([A-Za-z]*)$` from
`Utils.normalize_scid` (utils.py:65): on success the result is
`prefix.upper() + str(int(digits)) + suffix.upper()`. -/
def partMatch (tok : PyStr) : Option PyStr :=
  if ((tok.dropWhile isAlphaN).takeWhile isDigitN).isEmpty then none
  else if ((tok.dropWhile isAlphaN).dropWhile isDigitN).all isAlphaN then
    some (pyUpper (tok.takeWhile isAlphaN)
      ++ canonDigits ((tok.dropWhile isAlphaN).takeWhile isDigitN)
      ++ pyUpper ((tok.dropWhile isAlphaN).dropWhile isDigitN))
  else none

/-- Per-token normalization step of `Utils.normalize_scid` (utils.py:58-72):
pure digit tokens lose leading zeros, mixed alphanumeric tokens are matched
against `partMatch`, anything else is uppercased. -/
def normToken (tok : PyStr) : PyStr :=
  if ¬tok.isEmpty ∧ tok.all isDigitN then canonDigits tok
  else
    match partMatch tok with
    | some r => r
    | none => pyUpper tok

/-- `Utils.normalize_scid` (utils.py:10-74) in the default configuration
`ignore_keywords=None` (the keyword-removal block at utils.py:32-43 is then
skipped): strip whitespace, drop one leading apostrophe (code point 39),
then either the whole-string numeric regex or the token-wise path. -/
def dequote (t : PyStr) : PyStr := if t.head? = some 39 then t.tail else t

/-- Whole-string normalization after stripping and de-quoting. -/
def normCore (t : PyStr) : PyStr :=
  match simpleMatch t with
  | some r => r
  | none => joinSpace ((pySplitWs t).map normToken)

def normalize_scid (s : PyStr) : PyStr :=
  if s.isEmpty then s
  else normCore (dequote (pyStrip s))

end Utils

-- Character- and list-level helper lemmas.
theorem boolEqOfIff {a b : Bool} (h : a = true ↔ b = true) : a = b := by
  cases a <;> cases b <;> simp_all

theorem boolEqFalseOfNot {a : Bool} (h : ¬a = true) : a = false := by
  cases a <;> simp_all

theorem upN_upN (c : Nat) : upN (upN c) = upN c := by
  unfold upN; split <;> (try split) <;> omega

theorem isDigitN_upN (c : Nat) : isDigitN (upN c) = isDigitN c := by
  unfold isDigitN upN
  apply boolEqOfIff
  split <;> simp only [Bool.and_eq_true, decide_eq_true_eq] <;> omega

theorem isAlphaN_upN (c : Nat) : isAlphaN (upN c) = isAlphaN c := by
  unfold isAlphaN upN
  apply boolEqOfIff
  split <;> simp only [Bool.or_eq_true, Bool.and_eq_true, decide_eq_true_eq] <;> omega

theorem isWsN_upN (c : Nat) : isWsN (upN c) = isWsN c := by
  unfold isWsN upN
  apply boolEqOfIff
  split <;> simp only [Bool.or_eq_true, beq_iff_eq] <;> omega

theorem upN_eq_39 {c : Nat} : upN c = 39 ↔ c = 39 := by
  unfold upN; split <;> omega

theorem upN_eq_46 {c : Nat} : upN c = 46 ↔ c = 46 := by
  unfold upN; split <;> omega

theorem not_ws_of_digit {c : Nat} (h : isDigitN c = true) : isWsN c = false := by
  simp only [isDigitN, Bool.and_eq_true, decide_eq_true_eq] at h
  apply boolEqFalseOfNot
  simp only [isWsN, Bool.or_eq_true, beq_iff_eq]
  omega

theorem not_ws_of_alpha {c : Nat} (h : isAlphaN c = true) : isWsN c = false := by
  simp only [isAlphaN, Bool.or_eq_true, Bool.and_eq_true, decide_eq_true_eq] at h
  apply boolEqFalseOfNot
  simp only [isWsN, Bool.or_eq_true, beq_iff_eq]
  omega

theorem not_alpha_of_digit {c : Nat} (h : isDigitN c = true) : isAlphaN c = false := by
  simp only [isDigitN, Bool.and_eq_true, decide_eq_true_eq] at h
  apply boolEqFalseOfNot
  simp only [isAlphaN, Bool.or_eq_true, Bool.and_eq_true, decide_eq_true_eq]
  omega

theorem ne_39_of_digit {c : Nat} (h : isDigitN c = true) : c ≠ 39 := by
  unfold isDigitN at h
  simp only [Bool.and_eq_true, decide_eq_true_eq] at h
  omega

theorem ne_46_of_digit {c : Nat} (h : isDigitN c = true) : c ≠ 46 := by
  unfold isDigitN at h
  simp only [Bool.and_eq_true, decide_eq_true_eq] at h
  omega

theorem ne_39_of_alpha {c : Nat} (h : isAlphaN c = true) : c ≠ 39 := by
  simp only [isAlphaN, Bool.or_eq_true, Bool.and_eq_true, decide_eq_true_eq] at h
  rcases h with h | h <;> omega

theorem ne_46_of_alpha {c : Nat} (h : isAlphaN c = true) : c ≠ 46 := by
  simp only [isAlphaN, Bool.or_eq_true, Bool.and_eq_true, decide_eq_true_eq] at h
  rcases h with h | h <;> omega

theorem not_digit_of_alpha {c : Nat} (h : isAlphaN c = true) : isDigitN c = false := by
  simp only [isAlphaN, Bool.or_eq_true, Bool.and_eq_true, decide_eq_true_eq] at h
  apply boolEqFalseOfNot
  simp only [isDigitN, Bool.and_eq_true, decide_eq_true_eq]
  rcases h with h | h <;> omega

theorem upN_digit_fix {c : Nat} (h : isDigitN c = true) : upN c = c := by
  simp only [isDigitN, Bool.and_eq_true, decide_eq_true_eq] at h
  unfold upN; split <;> omega

-- canonDigits facts
theorem dropWhile_head_not (p : Nat → Bool) (l : PyStr) {c : Nat}
    (h : (l.dropWhile p).head? = some c) : p c = false := by
  induction l with
  | nil => simp at h
  | cons a l ih =>
    rw [List.dropWhile_cons] at h
    split at h
    · exact ih h
    · simp only [List.head?_cons, Option.some.injEq] at h
      subst h
      simp_all

theorem canonDigits_ne_nil (ds : PyStr) : canonDigits ds ≠ [] := by
  unfold canonDigits
  split
  · simp
  · simp_all [List.isEmpty_iff]

theorem canonDigits_all_digit {ds : PyStr} (h : ds.all isDigitN = true) :
    (canonDigits ds).all isDigitN = true := by
  unfold canonDigits
  split
  · decide
  · simp only [List.all_eq_true] at h ⊢
    intro c hc
    exact h c (List.dropWhile_subset _ hc)

theorem canonDigits_canonDigits (ds : PyStr) :
    canonDigits (canonDigits ds) = canonDigits ds := by
  unfold canonDigits
  split <;> rename_i h
  · decide
  · simp only [List.isEmpty_iff] at h
    rcases hr : ds.dropWhile (fun c => c == 48) with _ | ⟨c, cs⟩
    · exact absurd hr h
    · have hc : (c == 48) = false := by
        apply dropWhile_head_not (fun c => c == 48) ds
        rw [hr]; rfl
      simp [List.dropWhile_cons, hc]

-- list and pyUpper transport helpers

theorem headMem {α : Type} {l : List α} {a : α} (h : l.head? = some a) : a ∈ l := by
  cases l with
  | nil => simp at h
  | cons b m =>
    simp only [List.head?_cons, Option.some.injEq] at h
    subst h; exact List.mem_cons_self b m

theorem getLastMem {α : Type} {l : List α} {a : α} (h : l.getLast? = some a) : a ∈ l := by
  rw [← List.head?_reverse] at h
  have := headMem h
  simpa using this

theorem takeWhile_nil_of_head {p : Nat → Bool} {l : PyStr}
    (h : ∀ c, l.head? = some c → p c = false) : l.takeWhile p = [] := by
  cases l with
  | nil => rfl
  | cons a m => rw [List.takeWhile_cons_of_neg]; simp [h a rfl]

theorem dropWhile_self_of_head {p : Nat → Bool} {l : PyStr}
    (h : ∀ c, l.head? = some c → p c = false) : l.dropWhile p = l := by
  cases l with
  | nil => rfl
  | cons a m => rw [List.dropWhile_cons_of_neg]; simp [h a rfl]

theorem getLast?_cons_ne {α : Type} {a : α} {l : List α} (h : l ≠ []) :
    (a :: l).getLast? = l.getLast? := by
  cases l with
  | nil => exact absurd rfl h
  | cons b m => exact List.getLast?_cons_cons

theorem pyUpper_pyUpper (s : PyStr) : pyUpper (pyUpper s) = pyUpper s := by
  simp only [pyUpper, List.map_map]
  apply List.map_congr_left
  intro a _
  exact upN_upN a

theorem pyUpper_ne_nil {s : PyStr} (h : s ≠ []) : pyUpper s ≠ [] := by
  simp [pyUpper, h]

theorem all_digit_pyUpper (s : PyStr) : (pyUpper s).all isDigitN = s.all isDigitN := by
  have hp : (isDigitN ∘ upN) = isDigitN := funext isDigitN_upN
  simp only [pyUpper, List.all_map, hp]

theorem all_alpha_pyUpper (s : PyStr) : (pyUpper s).all isAlphaN = s.all isAlphaN := by
  have hp : (isAlphaN ∘ upN) = isAlphaN := funext isAlphaN_upN
  simp only [pyUpper, List.all_map, hp]

theorem takeWhile_digit_pyUpper (s : PyStr) :
    (pyUpper s).takeWhile isDigitN = pyUpper (s.takeWhile isDigitN) := by
  have hp : (isDigitN ∘ upN) = isDigitN := funext isDigitN_upN
  simp only [pyUpper, List.takeWhile_map, hp]

theorem dropWhile_digit_pyUpper (s : PyStr) :
    (pyUpper s).dropWhile isDigitN = pyUpper (s.dropWhile isDigitN) := by
  have hp : (isDigitN ∘ upN) = isDigitN := funext isDigitN_upN
  simp only [pyUpper, List.dropWhile_map, hp]

theorem takeWhile_alpha_pyUpper (s : PyStr) :
    (pyUpper s).takeWhile isAlphaN = pyUpper (s.takeWhile isAlphaN) := by
  have hp : (isAlphaN ∘ upN) = isAlphaN := funext isAlphaN_upN
  simp only [pyUpper, List.takeWhile_map, hp]

theorem dropWhile_alpha_pyUpper (s : PyStr) :
    (pyUpper s).dropWhile isAlphaN = pyUpper (s.dropWhile isAlphaN) := by
  have hp : (isAlphaN ∘ upN) = isAlphaN := funext isAlphaN_upN
  simp only [pyUpper, List.dropWhile_map, hp]

theorem pyUpper_digits_fix {ds : PyStr} (h : ds.all isDigitN = true) : pyUpper ds = ds := by
  simp only [pyUpper]
  conv_rhs => rw [← List.map_id ds]
  apply List.map_congr_left
  intro a ha
  exact upN_digit_fix (List.all_eq_true.mp h a ha)

/-- Characters that never satisfy the separator predicate. -/
def noSep (sep : Nat → Bool) (l : PyStr) : Prop := ∀ c ∈ l, sep c = false

theorem canonDigits_head_digit {ds : PyStr} (h : ds.all isDigitN = true) :
    ∀ c, (canonDigits ds).head? = some c → isDigitN c = true := by
  intro c hc
  exact List.all_eq_true.mp (canonDigits_all_digit h) c (headMem hc)

-- splitAll facts

theorem splitAll_ne_nil (sep : Nat → Bool) (l : PyStr) : splitAll sep l ≠ [] := by
  induction l with
  | nil => simp [splitAll]
  | cons c cs ih =>
    rw [splitAll]
    split
    · simp
    · cases h : splitAll sep cs with
      | nil => exact absurd h ih
      | cons g gs => simp [List.modifyHead]

theorem mem_splitAll_not_sep {sep : Nat → Bool} {l g : PyStr}
    (hg : g ∈ splitAll sep l) : ∀ c ∈ g, sep c = false := by
  induction l generalizing g with
  | nil =>
    simp only [splitAll, List.mem_singleton] at hg
    subst hg; simp
  | cons a cs ih =>
    by_cases hsep : sep a
    · rw [splitAll, if_pos hsep] at hg
      rcases List.mem_cons.mp hg with h | h
      · subst h; simp
      · exact ih h
    · rw [splitAll, if_neg hsep] at hg
      cases hs : splitAll sep cs with
      | nil => exact absurd hs (splitAll_ne_nil sep cs)
      | cons g0 gs =>
        rw [hs, List.modifyHead] at hg
        rcases List.mem_cons.mp hg with h | h
        · subst h
          intro c hc
          rcases List.mem_cons.mp hc with h | h
          · subst h; exact boolEqFalseOfNot hsep
          · exact ih (by rw [hs]; exact List.mem_cons_self g0 gs) c h
        · exact ih (by rw [hs]; exact List.mem_cons_of_mem _ h)

theorem splitAll_nonsep {sep : Nat → Bool} {t : PyStr} (h : ∀ c ∈ t, sep c = false) :
    splitAll sep t = [t] := by
  induction t with
  | nil => rfl
  | cons a cs ih =>
    rw [splitAll, if_neg (by simp [h a (List.mem_cons_self a cs)])]
    rw [ih (fun c hc => h c (List.mem_cons_of_mem a hc))]
    rfl

theorem splitAll_append_nonsep {sep : Nat → Bool} {t : PyStr}
    (h : ∀ c ∈ t, sep c = false) (r : PyStr) :
    splitAll sep (t ++ r) = (splitAll sep r).modifyHead (fun g => t ++ g) := by
  induction t with
  | nil =>
    simp only [List.nil_append]
    cases splitAll sep r with
    | nil => rfl
    | cons g gs => simp [List.modifyHead]
  | cons a t ih =>
    rw [List.cons_append, splitAll, if_neg (by simp [h a (List.mem_cons_self a t)])]
    rw [ih (fun c hc => h c (List.mem_cons_of_mem a hc))]
    cases splitAll sep r with
    | nil => rfl
    | cons g gs => simp [List.modifyHead]

theorem splitAll_singleton {sep : Nat → Bool} {t g : PyStr}
    (h : splitAll sep t = [g]) : t = g := by
  induction t generalizing g with
  | nil =>
    simp only [splitAll, List.cons.injEq, and_true] at h
    exact h
  | cons a cs ih =>
    by_cases hsep : sep a
    · rw [splitAll, if_pos hsep] at h
      have hne := splitAll_ne_nil sep cs
      simp only [List.cons.injEq] at h
      exact absurd h.2 hne
    · rw [splitAll, if_neg hsep] at h
      cases hs : splitAll sep cs with
      | nil => exact absurd hs (splitAll_ne_nil sep cs)
      | cons g0 gs =>
        rw [hs, List.modifyHead] at h
        simp only [List.cons.injEq] at h
        obtain ⟨h1, h2⟩ := h
        subst h2
        rw [← h1, ih (by rw [hs])]

theorem splitAll_cons_head {sep : Nat → Bool} {a : Nat} {cs : PyStr} (hsep : sep a = false) :
    ∃ g gs, splitAll sep (a :: cs) = (a :: g) :: gs := by
  rw [splitAll, if_neg (by simp [hsep])]
  cases hs : splitAll sep cs with
  | nil => exact absurd hs (splitAll_ne_nil sep cs)
  | cons g0 gs => exact ⟨g0, gs, by simp [List.modifyHead]⟩

theorem splitAll_getLast_nonempty {sep : Nat → Bool} {t : PyStr} {b : Nat}
    (hb : t.getLast? = some b) (hsep : sep b = false) :
    ∃ gl, (splitAll sep t).getLast? = some gl ∧ gl ≠ [] := by
  induction t with
  | nil => simp at hb
  | cons a cs ih =>
    cases cs with
    | nil =>
      simp only [List.getLast?_singleton, Option.some.injEq] at hb
      subst hb
      rw [splitAll, if_neg (by simp [hsep])]
      exact ⟨[a], by simp [splitAll, List.modifyHead], by simp⟩
    | cons c cs2 =>
      rw [List.getLast?_cons_cons] at hb
      obtain ⟨gl, hgl, hne⟩ := ih hb
      by_cases hsa : sep a
      · rw [splitAll, if_pos hsa]
        refine ⟨gl, ?_, hne⟩
        rw [getLast?_cons_ne (splitAll_ne_nil sep (c :: cs2))]
        exact hgl
      · rw [splitAll, if_neg hsa]
        cases hs : splitAll sep (c :: cs2) with
        | nil => exact absurd hs (splitAll_ne_nil sep (c :: cs2))
        | cons g0 gs =>
          rw [hs] at hgl
          cases gs with
          | nil =>
            exact ⟨a :: g0, by simp [List.modifyHead], by simp⟩
          | cons g1 gs2 =>
            refine ⟨gl, ?_, hne⟩
            simp only [List.modifyHead]
            have e1 : ((a :: g0) :: g1 :: gs2).getLast? = (g1 :: gs2).getLast? :=
              getLast?_cons_ne (by simp)
            have e2 : (g0 :: g1 :: gs2).getLast? = (g1 :: gs2).getLast? :=
              getLast?_cons_ne (by simp)
            rw [e1, ← e2]
            exact hgl

-- pySplitWs and joinSpace facts

theorem getLast?_none_iff {α : Type} {l : List α} : l.getLast? = none ↔ l = [] := by
  rw [← List.head?_reverse, List.head?_eq_none_iff, List.reverse_eq_nil_iff]

theorem getLast?_append_ne {α : Type} {l₁ l₂ : List α} (h : l₂ ≠ []) :
    (l₁ ++ l₂).getLast? = l₂.getLast? := by
  rw [List.getLast?_append]
  cases hx : l₂.getLast? with
  | none => exact absurd (getLast?_none_iff.mp hx) h
  | some a => rfl

theorem pySplitWs_tokens_ne_nil {t g : PyStr} (h : g ∈ pySplitWs t) : g ≠ [] := by
  unfold pySplitWs at h
  have := List.of_mem_filter h
  simpa [List.isEmpty_iff] using this

theorem pySplitWs_tokens_wsFree {t g : PyStr} (h : g ∈ pySplitWs t) :
    ∀ c ∈ g, isWsN c = false := by
  unfold pySplitWs at h
  exact mem_splitAll_not_sep (List.mem_of_mem_filter h)

theorem pySplitWs_joinSpace {toks : List PyStr}
    (h1 : ∀ g ∈ toks, g ≠ []) (h2 : ∀ g ∈ toks, ∀ c ∈ g, isWsN c = false) :
    pySplitWs (joinSpace toks) = toks := by
  induction toks with
  | nil => rfl
  | cons t ts ih =>
    cases ts with
    | nil =>
      show pySplitWs (joinSpace [t]) = [t]
      unfold pySplitWs
      rw [show joinSpace [t] = t from rfl]
      rw [splitAll_nonsep (h2 t (List.mem_cons_self t []))]
      have hne := h1 t (List.mem_cons_self t [])
      have ht : (!t.isEmpty) = true := by simp [List.isEmpty_iff, hne]
      rw [List.filter_cons, if_pos ht, List.filter_nil]
    | cons t2 ts2 =>
      show pySplitWs (t ++ 32 :: joinSpace (t2 :: ts2)) = t :: t2 :: ts2
      unfold pySplitWs
      rw [splitAll_append_nonsep (h2 t (List.mem_cons_self t _))]
      rw [show splitAll isWsN (32 :: joinSpace (t2 :: ts2))
            = [] :: splitAll isWsN (joinSpace (t2 :: ts2)) from by
          rw [splitAll, if_pos (show isWsN 32 = true from rfl)]]
      simp only [List.modifyHead, List.append_nil]
      have hne := h1 t (List.mem_cons_self t _)
      have ht : (!t.isEmpty) = true := by simp [List.isEmpty_iff, hne]
      rw [List.filter_cons, if_pos ht]
      have := ih (fun g hg => h1 g (List.mem_cons_of_mem t hg))
                 (fun g hg => h2 g (List.mem_cons_of_mem t hg))
      unfold pySplitWs at this
      rw [this]

theorem joinSpace_ne_nil {toks : List PyStr} (h0 : toks ≠ [])
    (h1 : ∀ g ∈ toks, g ≠ []) : joinSpace toks ≠ [] := by
  cases toks with
  | nil => exact absurd rfl h0
  | cons t ts =>
    cases ts with
    | nil => exact h1 t (List.mem_cons_self t [])
    | cons t2 ts2 =>
      show t ++ 32 :: joinSpace (t2 :: ts2) ≠ []
      simp

theorem joinSpace_head? {t : PyStr} {ts : List PyStr} (ht : t ≠ []) :
    (joinSpace (t :: ts)).head? = t.head? := by
  cases ts with
  | nil => rfl
  | cons t2 ts2 =>
    show (t ++ 32 :: joinSpace (t2 :: ts2)).head? = t.head?
    cases t with
    | nil => exact absurd rfl ht
    | cons a t' => rfl

theorem joinSpace_getLast? {toks : List PyStr} (h0 : toks ≠ [])
    (h1 : ∀ g ∈ toks, g ≠ []) :
    ∃ tl, toks.getLast? = some tl ∧ (joinSpace toks).getLast? = tl.getLast? := by
  induction toks with
  | nil => exact absurd rfl h0
  | cons t ts ih =>
    cases ts with
    | nil => exact ⟨t, rfl, rfl⟩
    | cons t2 ts2 =>
      obtain ⟨tl, htl, hj⟩ := ih (by simp) (fun g hg => h1 g (List.mem_cons_of_mem t hg))
      refine ⟨tl, ?_, ?_⟩
      · rw [getLast?_cons_ne (by simp)]; exact htl
      · show (t ++ 32 :: joinSpace (t2 :: ts2)).getLast? = tl.getLast?
        rw [getLast?_append_ne (by simp)]
        have hjne : joinSpace (t2 :: ts2) ≠ [] :=
          joinSpace_ne_nil (by simp) (fun g hg => h1 g (List.mem_cons_of_mem t hg))
        rw [getLast?_cons_ne hjne]
        exact hj

theorem mem_joinSpace {c : Nat} {toks : List PyStr} (h : c ∈ joinSpace toks) :
    c = 32 ∨ ∃ g ∈ toks, c ∈ g := by
  induction toks with
  | nil => simp [joinSpace] at h
  | cons t ts ih =>
    cases ts with
    | nil =>
      right; exact ⟨t, List.mem_cons_self t [], h⟩
    | cons t2 ts2 =>
      have h' : c ∈ t ++ 32 :: joinSpace (t2 :: ts2) := h
      rcases List.mem_append.mp h' with hm | hm
      · right; exact ⟨t, List.mem_cons_self t _, hm⟩
      · rcases List.mem_cons.mp hm with hm | hm
        · left; exact hm
        · rcases ih hm with hm | ⟨g, hg, hc⟩
          · left; exact hm
          · right; exact ⟨g, List.mem_cons_of_mem t hg, hc⟩

-- pyStrip facts

theorem pyStrip_head_not_ws {l : PyStr} {c : Nat}
    (h : (pyStrip l).head? = some c) : isWsN c = false := by
  unfold pyStrip at h
  rw [List.head?_reverse] at h
  have hsuf : ((l.dropWhile isWsN).reverse.dropWhile isWsN) <:+ (l.dropWhile isWsN).reverse :=
    List.dropWhile_suffix isWsN
  obtain ⟨pre, hpre⟩ := hsuf
  have hne : (l.dropWhile isWsN).reverse.dropWhile isWsN ≠ [] := by
    intro hnil; rw [hnil] at h; simp at h
  have : ((l.dropWhile isWsN).reverse).getLast? = some c := by
    rw [← hpre, getLast?_append_ne hne]
    exact h
  rw [List.getLast?_reverse] at this
  exact dropWhile_head_not isWsN l this

theorem pyStrip_getLast_not_ws {l : PyStr} {c : Nat}
    (h : (pyStrip l).getLast? = some c) : isWsN c = false := by
  unfold pyStrip at h
  rw [List.getLast?_reverse] at h
  exact dropWhile_head_not isWsN (l.dropWhile isWsN).reverse h

theorem pyStrip_eq_self_of_edges {l : PyStr}
    (hh : ∀ c, l.head? = some c → isWsN c = false)
    (hl : ∀ c, l.getLast? = some c → isWsN c = false) : pyStrip l = l := by
  unfold pyStrip
  rw [dropWhile_self_of_head hh]
  have e2 : l.reverse.dropWhile isWsN = l.reverse := by
    apply dropWhile_self_of_head
    intro c hc
    rw [List.head?_reverse] at hc
    exact hl c hc
  rw [e2, List.reverse_reverse]

theorem pyStrip_eq_self_of_wsFree {l : PyStr}
    (h : ∀ c ∈ l, isWsN c = false) : pyStrip l = l := by
  apply pyStrip_eq_self_of_edges
  · intro c hc; exact h c (headMem hc)
  · intro c hc; exact h c (getLastMem hc)

theorem pySplitWs_single {t tok : PyStr} (htrim : pyStrip t = t)
    (h : pySplitWs t = [tok]) : t = tok := by
  cases t with
  | nil => simp [pySplitWs, splitAll, List.filter] at h
  | cons a cs =>
    have hha : isWsN a = false := by
      apply pyStrip_head_not_ws
      rw [htrim]; rfl
    obtain ⟨g, gs, hsp⟩ := splitAll_cons_head hha
    have hlast : ∃ b, (a :: cs).getLast? = some b ∧ isWsN b = false := by
      cases hb : (a :: cs).getLast? with
      | none => rw [getLast?_none_iff] at hb; simp at hb
      | some b =>
        refine ⟨b, rfl, ?_⟩
        apply pyStrip_getLast_not_ws
        rw [htrim]; exact hb
    obtain ⟨b, hb, hbw⟩ := hlast
    obtain ⟨gl, hgl, hglne⟩ := splitAll_getLast_nonempty hb hbw
    unfold pySplitWs at h
    rw [hsp, List.filter_cons, if_pos (by simp [List.isEmpty_iff])] at h
    simp only [List.cons.injEq] at h
    obtain ⟨h1, h2⟩ := h
    cases hgs : gs with
    | nil =>
      rw [hgs] at hsp
      have := splitAll_singleton hsp
      rw [this, h1]
    | cons g1 gs2 =>
      exfalso
      rw [hsp, hgs] at hgl
      have e1 : ((a :: g) :: g1 :: gs2).getLast? = (g1 :: gs2).getLast? :=
        getLast?_cons_ne (by simp)
      rw [e1] at hgl
      have hmem : gl ∈ g1 :: gs2 := getLastMem hgl
      have hmf : gl ∈ List.filter (fun g => !g.isEmpty) (g1 :: gs2) :=
        List.mem_filter.mpr ⟨hmem, by simp [List.isEmpty_iff, hglne]⟩
      rw [hgs] at h2
      rw [h2] at hmf
      simp at hmf

-- simpleMatch and partMatch structural facts

theorem isEmpty_pyUpper (l : PyStr) : (pyUpper l).isEmpty = l.isEmpty := by
  cases l <;> rfl

namespace Utils

theorem simpleMatch_some_shape {s r : PyStr} (h : simpleMatch s = some r) :
    ∃ ds ls, r = canonDigits ds ++ pyUpper ls ∧ ds ≠ [] ∧ ds.all isDigitN = true ∧
      ls.all isAlphaN = true := by
  unfold simpleMatch at h
  split at h
  · exact absurd h (by simp)
  · rename_i hne
    split at h
    · split at h
      · exact absurd h (by simp)
      · split at h
        · rename_i halpha
          simp only [Option.some.injEq] at h
          refine ⟨s.takeWhile isDigitN, _, h.symm, ?_, List.all_takeWhile, halpha⟩
          simpa [List.isEmpty_iff] using hne
        · exact absurd h (by simp)
    · split at h
      · rename_i halpha
        simp only [Option.some.injEq] at h
        refine ⟨s.takeWhile isDigitN, _, h.symm, ?_, List.all_takeWhile, halpha⟩
        simpa [List.isEmpty_iff] using hne
      · exact absurd h (by simp)

theorem simpleMatch_some_chars {s r : PyStr} (h : simpleMatch s = some r) :
    ∀ c ∈ s, isDigitN c = true ∨ c = 46 ∨ isAlphaN c = true := by
  intro c hc
  have hsplit : s.takeWhile isDigitN ++ s.dropWhile isDigitN = s := by simp
  rw [← hsplit] at hc
  rcases List.mem_append.mp hc with h1 | h1
  · left; exact List.mem_takeWhile_imp h1
  · unfold simpleMatch at h
    split at h
    · exact absurd h (by simp)
    · split at h
      · rename_i h46
        cases hdw : s.dropWhile isDigitN with
        | nil => rw [hdw] at h46; simp at h46
        | cons x xs =>
          rw [hdw] at h46 h1
          simp only [List.head?_cons, Option.some.injEq] at h46
          subst h46
          rcases List.mem_cons.mp h1 with rfl | h1
          · right; left; rfl
          · rw [hdw] at h
            simp only [List.tail_cons] at h
            have hsplit2 :
                xs.takeWhile (fun c => c == 48) ++ xs.dropWhile (fun c => c == 48) = xs := by
              simp
            rw [← hsplit2] at h1
            rcases List.mem_append.mp h1 with h2 | h2
            · left
              have h48 := List.mem_takeWhile_imp h2
              have : c = 48 := by simpa using h48
              subst this; decide
            · split at h
              · exact absurd h (by simp)
              · split at h
                · rename_i halpha
                  right; right
                  exact List.all_eq_true.mp halpha c h2
                · exact absurd h (by simp)
      · split at h
        · rename_i halpha
          right; right
          exact List.all_eq_true.mp halpha c h1
        · exact absurd h (by simp)

theorem simpleMatch_none_of_ws {s : PyStr} {c : Nat} (hc : c ∈ s) (hw : isWsN c = true) :
    simpleMatch s = none := by
  cases hm : simpleMatch s with
  | none => rfl
  | some r =>
    exfalso
    rcases simpleMatch_some_chars hm c hc with h | h | h
    · simp [not_ws_of_digit h] at hw
    · subst h; exact absurd hw (by decide)
    · simp [not_ws_of_alpha h] at hw

theorem partMatch_some_shape {tok r : PyStr} (h : partMatch tok = some r) :
    r = pyUpper (tok.takeWhile isAlphaN)
        ++ (canonDigits ((tok.dropWhile isAlphaN).takeWhile isDigitN)
        ++ pyUpper ((tok.dropWhile isAlphaN).dropWhile isDigitN)) ∧
      ((tok.dropWhile isAlphaN).takeWhile isDigitN) ≠ [] ∧
      ((tok.dropWhile isAlphaN).dropWhile isDigitN).all isAlphaN = true := by
  unfold partMatch at h
  split at h
  · exact absurd h (by simp)
  · rename_i hne
    split at h
    · rename_i halpha
      simp only [Option.some.injEq] at h
      refine ⟨?_, by simpa [List.isEmpty_iff] using hne, halpha⟩
      rw [← h, List.append_assoc]
    · exact absurd h (by simp)

theorem partMatch_pyUpper_none {tok : PyStr} (h : partMatch tok = none) :
    partMatch (pyUpper tok) = none := by
  unfold partMatch at h ⊢
  rw [dropWhile_alpha_pyUpper, takeWhile_digit_pyUpper, isEmpty_pyUpper,
      dropWhile_digit_pyUpper, all_alpha_pyUpper]
  split at h <;> rename_i hA
  · rw [if_pos hA]
  · rw [if_neg hA]
    split at h <;> rename_i hB
    · exact absurd h (by simp)
    · rw [if_neg hB]

theorem pyUpper_all_alpha {ls : PyStr} (hl : ls.all isAlphaN = true) :
    (pyUpper ls).all isAlphaN = true := by
  rw [all_alpha_pyUpper]; exact hl

theorem takeWhile_digit_nil_of_alpha {S : PyStr} (hS : S.all isAlphaN = true) :
    S.takeWhile isDigitN = [] := by
  apply takeWhile_nil_of_head
  intro c hc
  exact not_digit_of_alpha (List.all_eq_true.mp hS c (headMem hc))

theorem dropWhile_digit_self_of_alpha {S : PyStr} (hS : S.all isAlphaN = true) :
    S.dropWhile isDigitN = S := by
  apply dropWhile_self_of_head
  intro c hc
  exact not_digit_of_alpha (List.all_eq_true.mp hS c (headMem hc))

theorem normToken_fix_of_partMatch {tok r : PyStr} (hp : partMatch tok = some r) :
    normToken r = r := by
  obtain ⟨hr, hdsne, hsufalpha⟩ := partMatch_some_shape hp
  have hprealpha : (tok.takeWhile isAlphaN).all isAlphaN = true := List.all_takeWhile
  have hdsdigit : ((tok.dropWhile isAlphaN).takeWhile isDigitN).all isDigitN = true :=
    List.all_takeWhile
  -- abbreviations
  have hPalpha : (pyUpper (tok.takeWhile isAlphaN)).all isAlphaN = true :=
    pyUpper_all_alpha hprealpha
  have hCdigit :
      (canonDigits ((tok.dropWhile isAlphaN).takeWhile isDigitN)).all isDigitN = true :=
    canonDigits_all_digit hdsdigit
  have hCne := canonDigits_ne_nil ((tok.dropWhile isAlphaN).takeWhile isDigitN)
  have hSalpha : (pyUpper ((tok.dropWhile isAlphaN).dropWhile isDigitN)).all isAlphaN = true :=
    pyUpper_all_alpha hsufalpha
  -- name the three pieces
  generalize hP : pyUpper (tok.takeWhile isAlphaN) = P at hr hPalpha
  generalize hC : canonDigits ((tok.dropWhile isAlphaN).takeWhile isDigitN) = C
    at hr hCdigit hCne
  generalize hS : pyUpper ((tok.dropWhile isAlphaN).dropWhile isDigitN) = S at hr hSalpha
  -- C is a fixed point of canonDigits, S and P of pyUpper
  have hCfix : canonDigits C = C := by
    rw [← hC, canonDigits_canonDigits]
  have hPfix : pyUpper P = P := by rw [← hP, pyUpper_pyUpper]
  have hSfix : pyUpper S = S := by rw [← hS, pyUpper_pyUpper]
  -- head of C ++ S is a digit
  have hCS_head : ∀ c, (C ++ S).head? = some c → isDigitN c = true := by
    intro c hc
    cases hCc : C with
    | nil => exact absurd hCc hCne
    | cons c0 C2 =>
      rw [hCc] at hc
      simp only [List.cons_append, List.head?_cons, Option.some.injEq] at hc
      rcases hc with rfl
      exact List.all_eq_true.mp hCdigit _ (by rw [hCc]; exact List.mem_cons_self _ _)
  -- takeWhile/dropWhile computations on r
  have tw_alpha : r.takeWhile isAlphaN = P := by
    rw [hr, List.takeWhile_append_of_pos (by
      intro a ha; exact List.all_eq_true.mp hPalpha a ha)]
    rw [takeWhile_nil_of_head (fun c hc => not_alpha_of_digit (hCS_head c hc)),
      List.append_nil]
  have dw_alpha : r.dropWhile isAlphaN = C ++ S := by
    rw [hr, List.dropWhile_append_of_pos (by
      intro a ha; exact List.all_eq_true.mp hPalpha a ha)]
    exact dropWhile_self_of_head (fun c hc => not_alpha_of_digit (hCS_head c hc))
  have tw_digit : (C ++ S).takeWhile isDigitN = C := by
    rw [List.takeWhile_append_of_pos (by
      intro a ha; exact List.all_eq_true.mp hCdigit a ha)]
    rw [takeWhile_digit_nil_of_alpha hSalpha, List.append_nil]
  have dw_digit : (C ++ S).dropWhile isDigitN = S := by
    rw [List.dropWhile_append_of_pos (by
      intro a ha; exact List.all_eq_true.mp hCdigit a ha)]
    exact dropWhile_digit_self_of_alpha hSalpha
  by_cases hdeg : P = [] ∧ S = []
  · -- r is exactly the digit run C
    obtain ⟨hP0, hS0⟩ := hdeg
    have hrC : r = C := by rw [hr, hP0, hS0]; simp
    unfold normToken
    rw [if_pos ⟨by simpa [hrC, List.isEmpty_iff] using hCne, by rw [hrC]; exact hCdigit⟩]
    rw [hrC, hCfix]
  · -- r contains at least one letter, so it is not a pure digit token
    have hx : ∃ x ∈ r, isAlphaN x = true := by
      rcases (not_and_or.mp hdeg) with hP0 | hS0
      · cases hPc : P with
        | nil => exact absurd hPc hP0
        | cons p0 P2 =>
          refine ⟨p0, ?_, ?_⟩
          · rw [hr, hPc]; exact List.mem_append_left _ (List.mem_cons_self p0 P2)
          · exact List.all_eq_true.mp hPalpha p0 (by rw [hPc]; exact List.mem_cons_self p0 P2)
      · cases hSc : S with
        | nil => exact absurd hSc hS0
        | cons s0 S2 =>
          refine ⟨s0, ?_, ?_⟩
          · rw [hr, hSc]
            exact List.mem_append_right _ (List.mem_append_right _ (List.mem_cons_self s0 S2))
          · exact List.all_eq_true.mp hSalpha s0 (by rw [hSc]; exact List.mem_cons_self s0 S2)
    obtain ⟨x, hxr, hxalpha⟩ := hx
    have hnd : ¬(¬r.isEmpty = true ∧ r.all isDigitN = true) := by
      rintro ⟨-, hall⟩
      have := List.all_eq_true.mp hall x hxr
      simp [not_digit_of_alpha hxalpha] at this
    unfold normToken
    rw [if_neg hnd]
    have hpm : partMatch r = some (pyUpper P ++ canonDigits C ++ pyUpper S) := by
      unfold partMatch
      rw [dw_alpha, tw_digit, dw_digit, tw_alpha]
      rw [if_neg (by simpa [List.isEmpty_iff] using hCne), if_pos hSalpha]
    rw [hpm]
    show pyUpper P ++ canonDigits C ++ pyUpper S = r
    rw [hPfix, hCfix, hSfix, hr, List.append_assoc]

theorem normToken_normToken (tok : PyStr) : normToken (normToken tok) = normToken tok := by
  by_cases h1 : ¬tok.isEmpty = true ∧ tok.all isDigitN = true
  · have e1 : normToken tok = canonDigits tok := by unfold normToken; rw [if_pos h1]
    rw [e1]
    have hall := canonDigits_all_digit h1.2
    have hne := canonDigits_ne_nil tok
    have e2 : normToken (canonDigits tok) = canonDigits (canonDigits tok) := by
      unfold normToken
      rw [if_pos ⟨by simpa [List.isEmpty_iff] using hne, hall⟩]
    rw [e2, canonDigits_canonDigits]
  · have e1 : normToken tok = match partMatch tok with
        | some r => r
        | none => pyUpper tok := by
      unfold normToken; rw [if_neg h1]
    cases hp : partMatch tok with
    | some r =>
      rw [e1, hp]
      exact normToken_fix_of_partMatch hp
    | none =>
      rw [e1, hp]
      by_cases htok : tok = []
      · subst htok; rfl
      · have hnd : ¬(¬(pyUpper tok).isEmpty = true ∧ (pyUpper tok).all isDigitN = true) := by
          rw [isEmpty_pyUpper, all_digit_pyUpper]
          exact h1
        unfold normToken
        rw [if_neg hnd, partMatch_pyUpper_none hp]
        show pyUpper (pyUpper tok) = pyUpper tok
        exact pyUpper_pyUpper tok

end Utils

namespace Utils

theorem takeWhile_eq_self_of_all {p : Nat → Bool} {l : PyStr} (h : l.all p = true) :
    l.takeWhile p = l := by
  induction l with
  | nil => rfl
  | cons a m ih =>
    simp only [List.all_cons, Bool.and_eq_true] at h
    rw [List.takeWhile_cons_of_pos h.1, ih h.2]

theorem dropWhile_eq_nil_of_all {p : Nat → Bool} {l : PyStr} (h : l.all p = true) :
    l.dropWhile p = [] := by
  induction l with
  | nil => rfl
  | cons a m ih =>
    simp only [List.all_cons, Bool.and_eq_true] at h
    rw [List.dropWhile_cons_of_pos h.1, ih h.2]

theorem dropWhile_self_of_takeWhile_nil {p : Nat → Bool} {l : PyStr}
    (h : l.takeWhile p = []) : l.dropWhile p = l := by
  cases l with
  | nil => rfl
  | cons a m =>
    by_cases hp : p a
    · rw [List.takeWhile_cons_of_pos hp] at h; simp at h
    · rw [List.dropWhile_cons_of_neg hp]

theorem normToken_ne_nil {tok : PyStr} (h : tok ≠ []) : normToken tok ≠ [] := by
  unfold normToken
  split
  · exact canonDigits_ne_nil tok
  · cases hp : partMatch tok with
    | some r =>
      obtain ⟨hr, hdsne, -⟩ := partMatch_some_shape hp
      rw [hr]
      simp only [ne_eq, List.append_eq_nil, not_and]
      intro
      simp [List.append_eq_nil, canonDigits_ne_nil]
    | none => exact pyUpper_ne_nil h

theorem mem_pyUpper {c : Nat} {l : PyStr} (h : c ∈ pyUpper l) : ∃ b ∈ l, c = upN b := by
  simp only [pyUpper, List.mem_map] at h
  obtain ⟨b, hb, hbc⟩ := h
  exact ⟨b, hb, hbc.symm⟩

theorem normToken_wsFree {tok : PyStr} (h : ∀ c ∈ tok, isWsN c = false) :
    ∀ c ∈ normToken tok, isWsN c = false := by
  unfold normToken
  split
  · rename_i hcond
    intro c hc
    exact not_ws_of_digit (List.all_eq_true.mp (canonDigits_all_digit hcond.2) c hc)
  · cases hp : partMatch tok with
    | some r =>
      obtain ⟨hr, -, hsufalpha⟩ := partMatch_some_shape hp
      intro c hc
      rw [hr] at hc
      rcases List.mem_append.mp hc with h1 | h1
      · obtain ⟨b, hb, rfl⟩ := mem_pyUpper h1
        exact not_ws_of_alpha (by
          rw [isAlphaN_upN]
          exact List.mem_takeWhile_imp hb)
      · rcases List.mem_append.mp h1 with h2 | h2
        · exact not_ws_of_digit
            (List.all_eq_true.mp (canonDigits_all_digit List.all_takeWhile) c h2)
        · obtain ⟨b, hb, rfl⟩ := mem_pyUpper h2
          exact not_ws_of_alpha (by
            rw [isAlphaN_upN]
            exact List.all_eq_true.mp hsufalpha b hb)
    | none =>
      intro c hc
      obtain ⟨b, hb, rfl⟩ := mem_pyUpper hc
      rw [isWsN_upN]
      exact h b hb

theorem normToken_head_ne_39 {tok : PyStr} (h39 : tok.head? ≠ some 39) :
    (normToken tok).head? ≠ some 39 := by
  unfold normToken
  split
  · rename_i hcond
    intro hc
    have := canonDigits_head_digit hcond.2 39 hc
    exact absurd this (by decide)
  · cases hp : partMatch tok with
    | some r =>
      obtain ⟨hr, hdsne, -⟩ := partMatch_some_shape hp
      intro hc
      have h39mem : (39 : Nat) ∈ r := headMem hc
      rw [hr] at h39mem
      rcases List.mem_append.mp h39mem with h1 | h1
      · obtain ⟨b, hb, hub⟩ := mem_pyUpper h1
        have halpha : isAlphaN b = true := List.mem_takeWhile_imp hb
        have : isAlphaN (39 : Nat) = true := by
          rw [hub, isAlphaN_upN]; exact halpha
        exact absurd this (by decide)
      · rcases List.mem_append.mp h1 with h2 | h2
        · have := List.all_eq_true.mp (canonDigits_all_digit List.all_takeWhile) _ h2
          exact absurd this (by decide)
        · obtain ⟨b, hb, hub⟩ := mem_pyUpper h2
          obtain ⟨-, -, hsufalpha⟩ := partMatch_some_shape hp
          have halpha : isAlphaN b = true := List.all_eq_true.mp hsufalpha b hb
          have : isAlphaN (39 : Nat) = true := by
            rw [hub, isAlphaN_upN]; exact halpha
          exact absurd this (by decide)
    | none =>
      intro hc
      cases tok with
      | nil => simp [pyUpper] at hc
      | cons a m =>
        simp only [pyUpper, List.map_cons, List.head?_cons, Option.some.injEq] at hc
        have : a = 39 := upN_eq_39.mp hc
        subst this
        exact h39 rfl

theorem beq48_upN (c : Nat) : (upN c == 48) = (c == 48) := by
  apply boolEqOfIff
  simp only [beq_iff_eq]
  unfold upN; split <;> omega

theorem takeWhile_48_pyUpper (s : PyStr) :
    (pyUpper s).takeWhile (fun c => c == 48) = pyUpper (s.takeWhile (fun c => c == 48)) := by
  have hp : ((fun c : Nat => c == 48) ∘ upN) = (fun c : Nat => c == 48) :=
    funext fun c => beq48_upN c
  simp only [pyUpper, List.takeWhile_map, hp]

theorem dropWhile_48_pyUpper (s : PyStr) :
    (pyUpper s).dropWhile (fun c => c == 48) = pyUpper (s.dropWhile (fun c => c == 48)) := by
  have hp : ((fun c : Nat => c == 48) ∘ upN) = (fun c : Nat => c == 48) :=
    funext fun c => beq48_upN c
  simp only [pyUpper, List.dropWhile_map, hp]

theorem tail_pyUpper (s : PyStr) : (pyUpper s).tail = pyUpper s.tail := by
  cases s <;> rfl

theorem head?_pyUpper_46 (X : PyStr) :
    ((pyUpper X).head? = some 46) ↔ (X.head? = some 46) := by
  cases X with
  | nil => simp [pyUpper]
  | cons a m =>
    simp only [pyUpper, List.map_cons, List.head?_cons, Option.some.injEq]
    exact upN_eq_46

theorem simpleMatch_pyUpper_none {s : PyStr} (h : simpleMatch s = none) :
    simpleMatch (pyUpper s) = none := by
  unfold simpleMatch at h ⊢
  simp only [takeWhile_digit_pyUpper, isEmpty_pyUpper, dropWhile_digit_pyUpper,
    head?_pyUpper_46, tail_pyUpper, takeWhile_48_pyUpper, dropWhile_48_pyUpper,
    all_alpha_pyUpper]
  split at h <;> rename_i hA
  · rw [if_pos hA]
  · rw [if_neg hA]
    split at h <;> rename_i hB
    · rw [if_pos hB]
      split at h <;> rename_i hC
      · rw [if_pos hC]
      · rw [if_neg hC]
        split at h <;> rename_i hD
        · exact absurd h (by simp)
        · rw [if_neg hD]
    · rw [if_neg hB]
      split at h <;> rename_i hE
      · exact absurd h (by simp)
      · rw [if_neg hE]

end Utils

namespace Utils

theorem simpleMatch_fix {t r : PyStr} (h : simpleMatch t = some r) :
    simpleMatch r = some r := by
  obtain ⟨ds, ls, hr, hdsne, hdsdigit, hlsalpha⟩ := simpleMatch_some_shape h
  have hCne := canonDigits_ne_nil ds
  have hCdigit := canonDigits_all_digit hdsdigit
  have hLalpha : (pyUpper ls).all isAlphaN = true := pyUpper_all_alpha hlsalpha
  have tw : r.takeWhile isDigitN = canonDigits ds := by
    rw [hr, List.takeWhile_append_of_pos (fun a ha => List.all_eq_true.mp hCdigit a ha)]
    rw [takeWhile_digit_nil_of_alpha hLalpha, List.append_nil]
  have dw : r.dropWhile isDigitN = pyUpper ls := by
    rw [hr, List.dropWhile_append_of_pos (fun a ha => List.all_eq_true.mp hCdigit a ha)]
    exact dropWhile_digit_self_of_alpha hLalpha
  have h46 : ¬((pyUpper ls).head? = some 46) := by
    intro hc
    have := List.all_eq_true.mp hLalpha 46 (headMem hc)
    exact absurd this (by decide)
  unfold simpleMatch
  rw [tw, dw]
  rw [if_neg (by simpa [List.isEmpty_iff] using hCne), if_neg h46, if_pos hLalpha,
      canonDigits_canonDigits, pyUpper_pyUpper, ← hr]

theorem normalize_scid_eval {o : PyStr} (hne : o ≠ []) (hstrip : pyStrip o = o)
    (h39 : o.head? ≠ some 39) :
    normalize_scid o = normCore o := by
  unfold normalize_scid
  rw [if_neg (by simpa [List.isEmpty_iff] using hne), hstrip]
  unfold dequote
  rw [if_neg h39]

theorem normCore_token_single {o : PyStr} (hne : o ≠ []) (hws : ∀ c ∈ o, isWsN c = false)
    (hsm : simpleMatch o = none) (hfix : normToken o = o) : normCore o = o := by
  unfold normCore
  rw [hsm]
  show joinSpace ((pySplitWs o).map normToken) = o
  unfold pySplitWs
  rw [splitAll_nonsep hws]
  rw [List.filter_cons, if_pos (by simp [List.isEmpty_iff, hne]), List.filter_nil]
  show joinSpace [normToken o] = o
  rw [show joinSpace [normToken o] = normToken o from rfl, hfix]

/-- Fixed-point property of `normCore` on a stripped input with no leading
apostrophe: one further `normalize_scid` pass leaves the result unchanged. -/
theorem normCore_fix {t : PyStr} (htt : pyStrip t = t) (h39 : t.head? ≠ some 39) :
    normalize_scid (normCore t) = normCore t := by
  cases hm : simpleMatch (t) with
  | some r =>
    have e2 : normCore (t) = r := by unfold normCore; rw [hm]
    rw [e2]
    obtain ⟨ds, ls, hr, hdsne, hdsdigit, hlsalpha⟩ := simpleMatch_some_shape hm
    have hfix := simpleMatch_fix hm
    have hne : r ≠ [] := by
      rw [hr]
      simp only [ne_eq, List.append_eq_nil, not_and]
      intro hcanon
      exact absurd hcanon (canonDigits_ne_nil ds)
    have hws : ∀ c ∈ r, isWsN c = false := by
      intro c hc
      rw [hr] at hc
      rcases List.mem_append.mp hc with h1 | h1
      · exact not_ws_of_digit (List.all_eq_true.mp (canonDigits_all_digit hdsdigit) c h1)
      · obtain ⟨b, hb, rfl⟩ := mem_pyUpper h1
        exact not_ws_of_alpha (by rw [isAlphaN_upN]; exact List.all_eq_true.mp hlsalpha b hb)
    have h39r : r.head? ≠ some 39 := by
      intro hc
      have hmem := headMem hc
      rw [hr] at hmem
      rcases List.mem_append.mp hmem with h1 | h1
      · exact absurd (List.all_eq_true.mp (canonDigits_all_digit hdsdigit) _ h1) (by decide)
      · obtain ⟨b, hb, hub⟩ := mem_pyUpper h1
        have : isAlphaN (39 : Nat) = true := by
          rw [hub, isAlphaN_upN]
          exact List.all_eq_true.mp hlsalpha b hb
        exact absurd this (by decide)
    rw [normalize_scid_eval hne (pyStrip_eq_self_of_wsFree hws) h39r]
    unfold normCore
    rw [hfix]
  | none =>
    have e2 : normCore (t) = joinSpace ((pySplitWs (t)).map normToken) := by
      unfold normCore; rw [hm]
    rw [e2]
    cases htoks : pySplitWs (t) with
    | nil =>
      show normalize_scid (joinSpace []) = joinSpace []
      rfl
    | cons tok1 rest =>
      have htokmem : ∀ g ∈ tok1 :: rest, g ∈ pySplitWs (t) := by
        rw [htoks]; intro g hg; exact hg
      have htokne : ∀ g ∈ tok1 :: rest, g ≠ [] := fun g hg =>
        pySplitWs_tokens_ne_nil (htokmem g hg)
      have htokws : ∀ g ∈ tok1 :: rest, ∀ c ∈ g, isWsN c = false := fun g hg =>
        pySplitWs_tokens_wsFree (htokmem g hg)
      have hmapne : ∀ g ∈ (tok1 :: rest).map normToken, g ≠ [] := by
        intro g hg
        obtain ⟨g0, hg0, rfl⟩ := List.mem_map.mp hg
        exact normToken_ne_nil (htokne g0 hg0)
      have hmapws : ∀ g ∈ (tok1 :: rest).map normToken, ∀ c ∈ g, isWsN c = false := by
        intro g hg
        obtain ⟨g0, hg0, rfl⟩ := List.mem_map.mp hg
        exact normToken_wsFree (htokws g0 hg0)
      have htok1head : tok1.head? = (t).head? := by
        cases hts : t with
        | nil => rw [hts] at htoks; simp [pySplitWs, splitAll, List.filter] at htoks
        | cons a cs =>
          have hha : isWsN a = false := by
            apply pyStrip_head_not_ws
            rw [htt, hts]
            rfl
          obtain ⟨g, gs, hsp⟩ := splitAll_cons_head hha
          rw [hts] at htoks
          unfold pySplitWs at htoks
          rw [hsp, List.filter_cons, if_pos (by simp [List.isEmpty_iff])] at htoks
          simp only [List.cons.injEq] at htoks
          rw [← htoks.1]
          rfl
      have htok1_39 : tok1.head? ≠ some 39 := by rw [htok1head]; exact h39
      have htok1ne : tok1 ≠ [] := htokne tok1 (List.mem_cons_self _ _)
      have htok1ws := htokws tok1 (List.mem_cons_self _ _)
      have hone : joinSpace ((tok1 :: rest).map normToken) ≠ [] :=
        joinSpace_ne_nil (by simp) hmapne
      have hohead : (joinSpace ((tok1 :: rest).map normToken)).head?
          = (normToken tok1).head? := by
        show (joinSpace (normToken tok1 :: rest.map normToken)).head? = _
        exact joinSpace_head? (normToken_ne_nil htok1ne)
      have ho39 : (joinSpace ((tok1 :: rest).map normToken)).head? ≠ some 39 := by
        rw [hohead]
        exact normToken_head_ne_39 htok1_39
      have hostrip : pyStrip (joinSpace ((tok1 :: rest).map normToken))
          = joinSpace ((tok1 :: rest).map normToken) := by
        apply pyStrip_eq_self_of_edges
        · intro c hc
          rw [hohead] at hc
          exact normToken_wsFree htok1ws c (headMem hc)
        · intro c hc
          obtain ⟨tl, htl, hj⟩ := joinSpace_getLast? (by simp) hmapne
          rw [hj] at hc
          exact hmapws tl (getLastMem htl) c (getLastMem hc)
      rw [normalize_scid_eval hone hostrip ho39]
      cases rest with
      | nil =>
        have hts_tok : t = tok1 := pySplitWs_single htt htoks
        show normCore (joinSpace [normToken tok1]) = joinSpace [normToken tok1]
        rw [show joinSpace [normToken tok1] = normToken tok1 from rfl]
        rw [hts_tok] at hm
        by_cases hb1 : ¬tok1.isEmpty = true ∧ tok1.all isDigitN = true
        · exfalso
          have hsome : simpleMatch tok1 ≠ none := by
            unfold simpleMatch
            rw [takeWhile_eq_self_of_all hb1.2, dropWhile_eq_nil_of_all hb1.2]
            rw [if_neg (by simpa [List.isEmpty_iff] using htok1ne)]
            rw [if_neg (by simp), if_pos (by simp)]
            simp
          exact hsome hm
        · have e3 : normToken tok1 = match partMatch tok1 with
              | some r => r
              | none => pyUpper tok1 := by
            unfold normToken; rw [if_neg hb1]
          cases hp : partMatch tok1 with
          | some r =>
            have hN : normToken tok1 = r := by rw [e3, hp]
            rw [hN]
            obtain ⟨hrr, hdsne2, hsufalpha2⟩ := partMatch_some_shape hp
            by_cases hpre : tok1.takeWhile isAlphaN = []
            · exfalso
              have hdw : tok1.dropWhile isAlphaN = tok1 :=
                dropWhile_self_of_takeWhile_nil hpre
              rw [hdw] at hdsne2 hsufalpha2
              have hsome : simpleMatch tok1 ≠ none := by
                unfold simpleMatch
                rw [if_neg (by simpa [List.isEmpty_iff] using hdsne2)]
                have h46 : ¬((tok1.dropWhile isDigitN).head? = some 46) := by
                  intro hc
                  exact absurd (List.all_eq_true.mp hsufalpha2 46 (headMem hc)) (by decide)
                rw [if_neg h46, if_pos hsufalpha2]
                simp
              exact hsome hm
            · have hralpha_head : ∀ c, r.head? = some c → isAlphaN c = true := by
                intro c hc
                rw [hrr] at hc
                cases hpc : tok1.takeWhile isAlphaN with
                | nil => exact absurd hpc hpre
                | cons p0 P2 =>
                  rw [hpc] at hc
                  simp only [pyUpper, List.map_cons, List.cons_append, List.head?_cons,
                    Option.some.injEq] at hc
                  rw [← hc, isAlphaN_upN]
                  exact List.mem_takeWhile_imp (by
                    rw [hpc]; exact List.mem_cons_self p0 P2)
              have hsmr : simpleMatch r = none := by
                have htwr : r.takeWhile isDigitN = [] := by
                  apply takeWhile_nil_of_head
                  intro c hc
                  exact not_digit_of_alpha (hralpha_head c hc)
                unfold simpleMatch
                rw [htwr]
                simp
              have hner : r ≠ [] := hN ▸ normToken_ne_nil htok1ne
              have hwsr : ∀ c ∈ r, isWsN c = false := hN ▸ normToken_wsFree htok1ws
              exact normCore_token_single hner hwsr hsmr (normToken_fix_of_partMatch hp)
          | none =>
            have hN : normToken tok1 = pyUpper tok1 := by rw [e3, hp]
            rw [hN]
            have hsmo : simpleMatch (pyUpper tok1) = none := simpleMatch_pyUpper_none hm
            have hfixo : normToken (pyUpper tok1) = pyUpper tok1 := by
              rw [← hN]
              exact normToken_normToken tok1
            have hwso : ∀ c ∈ pyUpper tok1, isWsN c = false := by
              intro c hc
              obtain ⟨b, hb, rfl⟩ := mem_pyUpper hc
              rw [isWsN_upN]
              exact htok1ws b hb
            exact normCore_token_single (pyUpper_ne_nil htok1ne) hwso hsmo hfixo
      | cons tok2 rest2 =>
        have h32 : (32 : Nat) ∈ joinSpace ((tok1 :: tok2 :: rest2).map normToken) := by
          show (32 : Nat) ∈ normToken tok1 ++ 32 :: joinSpace ((tok2 :: rest2).map normToken)
          exact List.mem_append_right _ (List.mem_cons_self _ _)
        have hsm : simpleMatch (joinSpace ((tok1 :: tok2 :: rest2).map normToken)) = none :=
          simpleMatch_none_of_ws h32 (by decide)
        unfold normCore
        rw [hsm]
        show joinSpace
            ((pySplitWs (joinSpace ((tok1 :: tok2 :: rest2).map normToken))).map normToken)
          = joinSpace ((tok1 :: tok2 :: rest2).map normToken)
        rw [pySplitWs_joinSpace hmapne hmapws]
        congr 1
        rw [List.map_map]
        apply List.map_congr_left
        intro a _
        exact normToken_normToken a

/-- Idempotence of `normalize_scid` on every input whose stripped, de-quoted
form is free of further leading whitespace and apostrophes (the excluded
inputs can lose another leading apostrophe, or a whitespace shield, on the
second pass). -/
theorem normalize_scid_idem_of_clean_strip {s : PyStr}
    (h1 : pyStrip (dequote (pyStrip s)) = dequote (pyStrip s))
    (h39 : (dequote (pyStrip s)).head? ≠ some 39) :
    normalize_scid (normalize_scid s) = normalize_scid s := by
  by_cases hs : s.isEmpty = true
  · have hnil : s = [] := by simpa [List.isEmpty_iff] using hs
    subst hnil
    rfl
  · have e : normalize_scid s = normCore (dequote (pyStrip s)) := by
      unfold normalize_scid
      rw [if_neg hs]
    rw [e]
    exact normCore_fix h1 h39

end Utils

/-! Shared numeric model: `float(...)` / `pandas.to_numeric(..., errors='coerce')`
on cleaned strings, `int(...)` truncation, Python `round` (half-to-even), and
decimal rendering of naturals. -/

/-- Decimal value of an ASCII digit run. -/
def digitsVal (ds : PyStr) : Nat := ds.foldl (fun acc c => acc * 10 + (c - 48)) 0

/-- Parse an unsigned decimal literal (`"12"`, `"12.5"`, `".5"`, `"12."`),
the grammar accepted by `float`/`to_numeric` for the strings this pipeline
produces (no exponents occur in the data model). -/
def parseUnsigned (u : PyStr) : Option ℚ :=
  if u ≠ [] ∧ u.all isDigitN then some (digitsVal u)
  else
    match u.dropWhile isDigitN with
    | 46 :: frac =>
      if frac.all isDigitN ∧ (u.takeWhile isDigitN ≠ [] ∨ frac ≠ []) then
        some ((digitsVal (u.takeWhile isDigitN) : ℚ)
          + (digitsVal frac : ℚ) / (10 : ℚ) ^ frac.length)
      else none
    | _ => none

/-- `float(s)` / `pd.to_numeric(s, errors='coerce')`: surrounding whitespace is
tolerated, an optional leading minus sign, else `None`. -/
def parseRatQ (s : PyStr) : Option ℚ :=
  match pyStrip s with
  | 45 :: u => (parseUnsigned u).map (fun q => -q)
  | u => parseUnsigned u

/-- `int(q)` for a rational: truncation toward zero, as a `Nat` for the
non-negative uses in this pipeline. -/
def ratTruncNat (q : ℚ) : Nat := (⌊q⌋).toNat

/-- Python `round(q)`: round half to even, on exact rationals. -/
def pyRound (q : ℚ) : ℤ :=
  if q - (⌊q⌋ : ℚ) < 1/2 then ⌊q⌋
  else if (1 : ℚ)/2 < q - (⌊q⌋ : ℚ) then ⌊q⌋ + 1
  else if ⌊q⌋ % 2 = 0 then ⌊q⌋ else ⌊q⌋ + 1

/-- Python `round(q, 2)`. -/
def round2 (q : ℚ) : ℚ := (pyRound (q * 100) : ℚ) / 100

/-- Python `int(q)` as an integer (truncation toward zero). -/
def pyTruncQ (q : ℚ) : ℤ := if 0 ≤ q then ⌊q⌋ else -⌊-q⌋

/-- Decimal rendering of a natural number, `str(n)`. -/
def natToStr (n : Nat) : PyStr := (Nat.toDigits 10 n).map Char.toNat

/-- `Utils.inches_to_feet_format(str(n))` for a non-negative whole number of
inches (utils.py:192-240, integer-string branch): `f"{n // 12}' {n % 12}\""`. -/
def inchesToFeetFormatInt (n : Nat) : PyStr :=
  natToStr (n / 12) ++ [39, 32] ++ natToStr (n % 12) ++ [34]

/-- `', '.join(parts)`. -/
def joinComma : List PyStr → PyStr
  | [] => []
  | [t] => t
  | t :: ts => t ++ [44, 32] ++ joinComma ts

/-- Order-preserving deduplication (first occurrence wins), the
`seen`-set loops used for height lists. -/
def dedupFirstAux : List PyStr → List PyStr → List PyStr
  | [], _ => []
  | x :: xs, seen =>
    if seen.any (fun y => y == x) then dedupFirstAux xs seen
    else x :: dedupFirstAux xs (x :: seen)

def dedupKeepFirst (l : List PyStr) : List PyStr := dedupFirstAux l []

/-- Maximum of a non-empty rational list (`max(xs)`); 0 on `[]` (unreached
behind the emptiness guards of the sources). -/
def listMaxQ : List ℚ → ℚ
  | [] => 0
  | x :: xs => xs.foldl max x


/-! Word-boundary matching: `re.search(r'\b' + re.escape(pat) + r'\b', s)`
for a literal pattern, ASCII semantics. -/

/-- Regex word character (`\w`): letters, digits, underscore. -/
def isWordChar (c : Nat) : Bool := isAlphaN c || isDigitN c || c == 95

/-- A `\b` boundary between an optional neighbouring character (string edge
when `none`) and a pattern-edge character: the word-ness must differ. -/
def bOk (side : Option Nat) (edge : Nat) : Bool :=
  (match side with | none => false | some c => isWordChar c) != isWordChar edge

/-- Does `\b pat \b` match at the current position of `s`, with `prev` the
character immediately before the position? -/
def wwHere (pat : PyStr) (prev : Option Nat) (s : PyStr) : Bool :=
  pat.isPrefixOf s &&
    (match pat.head?, pat.getLast? with
     | some f, some l => bOk prev f && bOk ((s.drop pat.length).head?) l
     | _, _ => false)

def wwScan (pat : PyStr) : Option Nat → PyStr → Bool
  | prev, [] => wwHere pat prev []
  | prev, c :: rest => wwHere pat prev (c :: rest) || wwScan pat (some c) rest

/-- `re.search(r'\b' + re.escape(pat) + r'\b', s) is not None`. -/
def containsWholeWord (pat s : PyStr) : Bool := wwScan pat none s


namespace AttachmentDataReader

/-- One row of a per-SCID attachment sheet: columns `company`, `measured`,
`height_in_inches` (attachment_data_reader.py). -/
structure AttRow where
  company : PyStr
  measured : PyStr
  height_in_inches : PyStr
deriving DecidableEq

/-- A row together with its `company_stripped` / `measured_stripped` columns
(attachment_data_reader.py:87-88). -/
structure PRow where
  row : AttRow
  companyStripped : PyStr
  measuredStripped : PyStr
deriving DecidableEq

def stripRows (df : List AttRow) : List PRow :=
  df.map (fun r => ⟨r, pyLower (pyStrip r.company), pyLower (pyStrip r.measured)⟩)

/-- `keyword_map` (attachment_data_reader.py:79-83): the non-blank keywords,
paired as (lowercased-stripped, original). -/
def powerKeywordMap (powerKeywords : List PyStr) : List (PyStr × PyStr) :=
  powerKeywords.filterMap (fun kw =>
    if (pyStrip kw).isEmpty then none else some (pyLower (pyStrip kw), kw))

/-- The company filter (attachment_data_reader.py:90-98): with a configured
power company keep rows whose company matches it as a whole word or is blank;
with no power company keep everything. -/
def companyCandidates (pc : PyStr) (rows : List PRow) : List PRow :=
  if pc.isEmpty then rows
  else rows.filter (fun x =>
    containsWholeWord pc x.companyStripped || x.companyStripped.isEmpty)

/-- The measured-text keyword filter (attachment_data_reader.py:103-106). -/
def keywordFilter (kmap : List (PyStr × PyStr)) (rows : List PRow) : List PRow :=
  rows.filter (fun x => kmap.any (fun kv => pyContains x.measuredStripped kv.1))

/-- `sorted(keyword_map, key=lambda x: len(x[0]), reverse=True)`: the stable
descending sort by keyword length (attachment_data_reader.py:112). -/
def sortKeysDesc (kmap : List (PyStr × PyStr)) : List (PyStr × PyStr) :=
  List.insertionSort (fun a b => b.1.length ≤ a.1.length) kmap

/-- `find_keyword` (attachment_data_reader.py:111-115): the first keyword, in
longest-first order, contained in the stripped measured text; the original
spelling is returned. -/
def findKeyword (kmap : List (PyStr × PyStr)) (measured : PyStr) : Option PyStr :=
  ((sortKeysDesc kmap).find? (fun kv => pyContains measured kv.1)).map (fun kv => kv.2)

/-- A candidate row with its `matched_keyword` column
(attachment_data_reader.py:117-118, rows with no match dropped). -/
structure KRow where
  prow : PRow
  matched : PyStr
deriving DecidableEq

def attachKeywords (kmap : List (PyStr × PyStr)) (rows : List PRow) : List KRow :=
  rows.filterMap (fun x => (findKeyword kmap x.measuredStripped).map (fun k => ⟨x, k⟩))

/-- `_keyword_requires_power_company` / `requires_power`
(attachment_data_reader.py:129-130, 288-294): `'riser' in keyword.strip().lower()`. -/
def requiresPowerCompany (keyword : PyStr) : Bool :=
  pyContains (pyLower (pyStrip keyword)) (strCodes "riser")

/-- `company_matches_power` for one row (attachment_data_reader.py:122-127). -/
def companyMatchesPower (pc : PyStr) (x : KRow) : Bool :=
  if pc.isEmpty then false else containsWholeWord pc x.prow.companyStripped

/-- The riser gate (attachment_data_reader.py:132-134): drop rows whose
matched keyword is riser-like unless the company matches the power company. -/
def riserGate (pc : PyStr) (rows : List KRow) : List KRow :=
  rows.filter (fun x => !(requiresPowerCompany x.matched && !companyMatchesPower pc x))

/-- A candidate row with its parsed `height_numeric`
(attachment_data_reader.py:138-143: quote marks removed, `to_numeric` with
coercion, `NaN` dropped, positive heights kept). -/
structure HRow where
  krow : KRow
  height : ℚ
deriving DecidableEq

def heightRows (rows : List KRow) : List HRow :=
  (rows.filterMap (fun x =>
    (parseRatQ (x.prow.row.height_in_inches.filter (fun c => !(c == 34 || c == 8243)))).map
      (fun h => HRow.mk x h))).filter (fun x => 0 < x.height)

/-- `idxmin` over `height_numeric`: first row attaining the minimum. -/
def argminFirst (rows : List HRow) : Option HRow :=
  match rows with
  | [] => none
  | x :: xs => some (xs.foldl (fun best y => if y.height < best.height then y else best) x)

/-- The full candidate pipeline of `find_power_attachment`. -/
def powerFinalCandidates (powerCompany : PyStr) (df : List AttRow)
    (powerKeywords : List PyStr) : List HRow :=
  heightRows (riserGate (pyLower (pyStrip powerCompany))
    (attachKeywords (powerKeywordMap powerKeywords)
      (keywordFilter (powerKeywordMap powerKeywords)
        (companyCandidates (pyLower (pyStrip powerCompany)) (stripRows df)))))

/-- The result dictionary of `find_power_attachment`
(attachment_data_reader.py:147-158), in the `output_decimal = False`
configuration in which `_format_height_for_output` is the identity. -/
structure PowerResult where
  height : PyStr
  height_decimal : ℚ
  company : PyStr
  measured : PyStr
  keyword : PyStr
deriving DecidableEq

/-- `find_power_attachment` (attachment_data_reader.py:72-161). -/
def find_power_attachment (powerCompany : PyStr) (df : List AttRow)
    (powerKeywords : List PyStr) : Option PowerResult :=
  if df.isEmpty then none
  else if (powerKeywordMap powerKeywords).isEmpty then none
  else
    match argminFirst (powerFinalCandidates powerCompany df powerKeywords) with
    | none => none
    | some x =>
      some { height := inchesToFeetFormatInt (ratTruncNat x.height)
             height_decimal := x.height / 12
             company := x.krow.prow.row.company
             measured := x.krow.prow.row.measured
             keyword := x.krow.matched }

end AttachmentDataReader


namespace PoleDataProcessor

/-- The configuration values consumed by the processor paths under study
(config keys `power_company`, `proposed_company`, `telecom_keywords`,
`telecom_providers`, `power_keywords`, `comm_keywords`), with
`processing_options.output_decimal = False` so that
`_format_height_for_output` is the identity. -/
structure Config where
  power_company : PyStr
  proposed_company : PyStr
  telecom_keywords : List (PyStr × List PyStr)
  telecom_providers : List PyStr
  power_keywords : List PyStr
  comm_keywords : List PyStr

/-- `_is_end_marker` (pole_data_processor.py:26-30):
`str(value).strip().upper() == 'END'`. -/
def is_end_marker (v : PyStr) : Bool := pyUpper (pyStrip v) == strCodes "END"

/-- `_is_telecom_company` (pole_data_processor.py:1127-1151); the argument is
already lowercased by the caller. -/
def _is_telecom_company (cfg : Config) (companyName : PyStr) : Bool :=
  if companyName.isEmpty || (pyStrip companyName).isEmpty then false
  else if (pyLower (pyStrip cfg.power_company)).isEmpty then true
  else !(pyContains (pyLower companyName) (pyLower (pyStrip cfg.power_company)))

/-- Lowercase alphanumeric, the class `[a-z0-9]`. -/
def isLowerAlnumN (c : Nat) : Bool := (97 ≤ c && c ≤ 122) || isDigitN c

/-- `re.sub(r'[^a-z0-9]+', ' ', s).strip()` for an already-lowercased `s`. -/
def alnumCollapse (s : PyStr) : PyStr :=
  joinSpace ((splitAll (fun c => !isLowerAlnumN c) s).filter (fun g => !g.isEmpty))

/-- `_get_proposed_company_keywords` (pole_data_processor.py:2152-2172): the
configured proposed company, its `proposed `-less and alphanumeric-collapsed
variants, plus the legacy MetroNet names.  The Python value is a set used
only in membership/any tests, so list order is irrelevant. -/
def _get_proposed_company_keywords (cfg : Config) : List PyStr :=
  (if (pyLower (pyStrip cfg.proposed_company)).isEmpty then []
   else [pyLower (pyStrip cfg.proposed_company)]
     ++ (if (strCodes "proposed ").isPrefixOf (pyLower (pyStrip cfg.proposed_company)) then
          [(pyLower (pyStrip cfg.proposed_company)).drop 9]
        else [])
     ++ (if (alnumCollapse (pyLower (pyStrip cfg.proposed_company))).isEmpty then []
        else [alnumCollapse (pyLower (pyStrip cfg.proposed_company))]))
  ++ [strCodes "proposed metronet", strCodes "metronet", strCodes "proposed mnt",
      strCodes "mnt"]

/-- The `all_providers` set of `_match_metronet`'s `power guy` branch
(pole_data_processor.py:2111-2124). -/
def allProvidersSet (cfg : Config) : List PyStr :=
  (if cfg.telecom_keywords.isEmpty then
    (cfg.telecom_providers.filter (fun p => !p.isEmpty)).map pyLower
      ++ _get_proposed_company_keywords cfg
   else cfg.telecom_keywords.flatMap (fun pk => pk.2.map pyLower))
  ++ cfg.power_keywords.map pyLower

/-- `_match_metronet` (pole_data_processor.py:2096-2131). -/
def _match_metronet (cfg : Config) (owner : PyStr) : Bool :=
  if (_get_proposed_company_keywords cfg).any
      (fun kw => pyContains (pyLower owner) kw) then true
  else if pyContains (pyLower owner) (strCodes "power guy") then
    (allProvidersSet cfg).any
      (fun p => pyContains (pyLower owner) p && !(p == strCodes "power guy"))
  else false

/-- `_match_telecom_provider` (pole_data_processor.py:2133-2150). -/
def _match_telecom_provider (cfg : Config) (owner : PyStr) : Option PyStr :=
  match cfg.telecom_keywords.find?
      (fun pk => pk.2.any (fun k => pyContains (pyLower owner) (pyLower k))) with
  | some pk => some pk.1
  | none =>
    if (_get_proposed_company_keywords cfg).any
        (fun kw => pyContains (pyLower owner) kw) then
      some (strCodes "Proposed MetroNet")
    else
      match cfg.telecom_providers.find?
          (fun p => !p.isEmpty && pyContains (pyLower owner) (pyLower p)) with
      | some p => some p
      | none => none

/-- The communication-keyword test of `_process_attachments`
(pole_data_processor.py:1516-1533): exact match, always-exact `Guy`, or
trailing-`*` substring wildcard. -/
def matchesCommKeyword (commKeywords : List PyStr) (measuredClean : PyStr) : Bool :=
  commKeywords.any (fun kw =>
    if pyLower (pyStrip kw) == strCodes "guy" then pyLower (pyStrip kw) == measuredClean
    else if (pyLower (pyStrip kw)).getLast? = some 42 then
      pyContains measuredClean ((pyLower (pyStrip kw)).dropLast)
    else pyLower (pyStrip kw) == measuredClean)

end PoleDataProcessor

namespace PoleDataProcessor

/-- Provider resolution for one row (pole_data_processor.py:1583-1590):
`_match_telecom_provider(company_str)` with the raw stripped company string
as fallback. -/
def providerOf (cfg : Config) (r : AttachmentDataReader.AttRow) : PyStr :=
  match _match_telecom_provider cfg (pyStrip r.company) with
  | some p => p
  | none => pyStrip r.company

/-- One iteration of the communication-candidate loop of
`_process_attachments` (pole_data_processor.py:1508-1598): keyword test on
the stripped lowered measured text, telecom-company test, proposed-company
exclusion, then height parsing (quote marks removed, positive heights only)
and provider resolution; rows with an empty resolved provider are skipped. -/
def commRowCandidate (cfg : Config) (r : AttachmentDataReader.AttRow) :
    Option (PyStr × (ℚ × PyStr)) :=
  if !(matchesCommKeyword cfg.comm_keywords (pyLower (pyStrip r.measured))) then none
  else if !(_is_telecom_company cfg (pyLower r.company)) then none
  else if !(pyLower (pyStrip cfg.proposed_company)).isEmpty
      && pyContains (pyLower r.company) (pyLower (pyStrip cfg.proposed_company)) then none
  else
    match parseRatQ (r.height_in_inches.filter (fun c => !(c == 34 || c == 8243))) with
    | none => none
    | some h =>
      if h ≤ 0 then none
      else if (providerOf cfg r).isEmpty then none
      else some (providerOf cfg r, (h / 12, inchesToFeetFormatInt (ratTruncNat h)))

/-- Appending to the `processed_attachments` Python dict: insertion order of
first appearance is preserved, later heights extend the provider's list. -/
def assocAppend (m : List (PyStr × List (ℚ × PyStr))) (k : PyStr) (v : ℚ × PyStr) :
    List (PyStr × List (ℚ × PyStr)) :=
  if m.any (fun e => e.1 == k) then
    m.map (fun e => if e.1 == k then (e.1, e.2 ++ [v]) else e)
  else m ++ [(k, [v])]

/-- The `processed_attachments` map built from all attachment rows of a pole
(pole_data_processor.py:1506-1598). -/
def processedAttachments (cfg : Config) (df : List AttachmentDataReader.AttRow) :
    List (PyStr × List (ℚ × PyStr)) :=
  df.foldl (fun m r =>
    match commRowCandidate cfg r with
    | some pv => assocAppend m pv.1 pv.2
    | none => m) []

/-- `height_list.sort(key=lambda x: x[0], reverse=True)`: the stable
descending sort by decimal height (pole_data_processor.py:1639). -/
def sortDescQ (l : List (ℚ × PyStr)) : List (ℚ × PyStr) :=
  List.insertionSort (fun a b => b.1 ≤ a.1) l

/-- The `provider_heights` list (pole_data_processor.py:1630-1650): for each
provider with a non-empty height list that is not the proposed company,
`(highest_height, provider, combined_heights)` with the deduplicated
comma-joined formatted heights. -/
def providerHeights (cfg : Config) (groups : List (PyStr × List (ℚ × PyStr))) :
    List (ℚ × PyStr × PyStr) :=
  groups.filterMap (fun g =>
    if g.2.isEmpty then none
    else if _match_metronet cfg g.1 then none
    else
      match sortDescQ g.2 with
      | [] => none
      | h :: rest =>
        some (h.1, g.1, joinComma (dedupKeepFirst ((h :: rest).map (fun e => e.2)))))

/-- The comm1..comm4 assignment (pole_data_processor.py:1652-1669): providers
sorted descending by highest height, the first four assigned in order. -/
def commAssignments (cfg : Config) (groups : List (PyStr × List (ℚ × PyStr))) :
    List (ℚ × PyStr × PyStr) :=
  (List.insertionSort (fun a b => b.1 ≤ a.1) (providerHeights cfg groups)).take 4

/-- The `metronet_heights` collection (pole_data_processor.py:1673-1679):
heights of every provider matching the proposed company, in iteration
order. -/
def metronetHeights (cfg : Config) (groups : List (PyStr × List (ℚ × PyStr))) :
    List (ℚ × PyStr) :=
  groups.foldl (fun acc g =>
    if !g.2.isEmpty && _match_metronet cfg g.1 then acc ++ g.2 else acc) []

/-- First entry attaining the minimal first component (`min(..., key=...)`). -/
def minFirstQ3 (l : List (ℚ × PyStr × PyStr)) : Option (ℚ × PyStr × PyStr) :=
  match l with
  | [] => none
  | x :: xs => some (xs.foldl (fun best y => if y.1 < best.1 then y else best) x)

def minFirstQ2 (l : List (ℚ × PyStr)) : Option (ℚ × PyStr) :=
  match l with
  | [] => none
  | x :: xs => some (xs.foldl (fun best y => if y.1 < best.1 then y else best) x)

/-- The entry `_calculate_power_heights` picks from `power_heights`
(pole_data_processor.py:2061-2085): among the positive heights, the minimum
of those at or above the highest telecom height, else the overall minimum. -/
def powerPick (ph : List (ℚ × PyStr × PyStr)) (ts : List ℚ) :
    Option (ℚ × PyStr × PyStr) :=
  if ph.isEmpty then none
  else
    if ((ph.filter (fun e => 0 < e.1)).filter
        (fun e => (if ts.isEmpty then 0 else listMaxQ ts) ≤ e.1)).isEmpty then
      minFirstQ3 (ph.filter (fun e => 0 < e.1))
    else
      minFirstQ3 ((ph.filter (fun e => 0 < e.1)).filter
        (fun e => (if ts.isEmpty then 0 else listMaxQ ts) ≤ e.1))

/-- `_calculate_power_heights` (pole_data_processor.py:2055-2094), returning
(`Power Height`, `Power Midspan`, `Power Type`). -/
def _calculate_power_heights (powerHeights : List (ℚ × PyStr × PyStr))
    (powerMidspanHeights : List (ℚ × PyStr)) (telecomHeights : List ℚ) :
    PyStr × PyStr × PyStr :=
  ((match powerPick powerHeights telecomHeights with
    | some e => e.2.1
    | none => []),
   (match minFirstQ2 powerMidspanHeights with
    | some e => e.2
    | none => []),
   (match powerPick powerHeights telecomHeights with
    | some e => e.2.2
    | none => []))

end PoleDataProcessor

namespace PoleDataProcessor

/-- An output row: the string-keyed field dictionary. -/
abbrev Row := List (PyStr × PyStr)

def lookupField (row : Row) (k : PyStr) : Option PyStr :=
  (row.find? (fun kv => kv.1 == k)).map (fun kv => kv.2)

/-- `row_data[k] = v` on a dict: update the existing key or append it. -/
def setField (row : Row) (k v : PyStr) : Row :=
  if (lookupField row k).isSome then
    row.map (fun kv => if kv.1 == k then (kv.1, v) else kv)
  else row ++ [(k, v)]

/-- `_apply_end_marker` (pole_data_processor.py:32-47): on an END-marker row,
force `Span Length` and every key containing `Midspan` to the literal
`"END"`. -/
def _apply_end_marker (row : Row) : Row :=
  if row.isEmpty then row
  else if !(is_end_marker ((lookupField row (strCodes "To Pole")).getD [])) then row
  else
    (setField row (strCodes "Span Length") (strCodes "END")).map
      (fun kv => if pyContains kv.1 (strCodes "Midspan") then (kv.1, strCodes "END") else kv)

/-- `_apply_span_length_tolerance` (pole_data_processor.py:3971-4005): with
both spans present and numeric after removing commas and quote characters,
prefer the QC span within tolerance; a parse failure or a missing span falls
back to `excel_span or qc_span`. -/
def _apply_span_length_tolerance (excelSpan qcSpan : PyStr) (tolerance : ℚ) : PyStr :=
  if qcSpan.isEmpty || excelSpan.isEmpty then
    (if !excelSpan.isEmpty then excelSpan else qcSpan)
  else
    match parseRatQ (pyStrip (excelSpan.filter (fun c => !(c == 44 || c == 39)))),
          parseRatQ (pyStrip (qcSpan.filter (fun c => !(c == 44 || c == 39)))) with
    | some e, some q => if |e - q| ≤ tolerance then qcSpan else excelSpan
    | _, _ => if !excelSpan.isEmpty then excelSpan else qcSpan

/-- Outcome of one QC field comparison: the `{'matches':1}` / `{'mismatches':1}`
dictionaries; `none` models the silent skip when QC has no value. -/
inductive CmpResult where
  | matched
  | mismatched
deriving DecidableEq

/-- `_compare_comm_attachment_height` (pole_data_processor.py:3874-3915),
restricted to its pure comparison outcome: simple whole-string comparison of
the stripped values. -/
def _compare_comm_attachment_height (templateValue qcValue : PyStr) : Option CmpResult :=
  if qcValue.isEmpty then none
  else if templateValue.isEmpty then some .mismatched
  else if pyStrip templateValue == pyStrip qcValue then some .matched
  else some .mismatched

/-- Python `qc_str.split(',')`, keeping empty pieces. -/
def pySplitComma (s : PyStr) : List PyStr := splitAll (fun c => c == 44) s

/-- `_compare_comm_midspan_height` (pole_data_processor.py:3917-3969): when
the QC value is comma-joined, a match is membership in its comma-split,
piecewise-stripped set; otherwise whole-string comparison. -/
def _compare_comm_midspan_height (templateValue qcValue : PyStr) : Option CmpResult :=
  if qcValue.isEmpty then none
  else if templateValue.isEmpty then some .mismatched
  else if pyContains (pyStrip qcValue) [44] then
    (if ((pySplitComma (pyStrip qcValue)).map pyStrip).contains (pyStrip templateValue) then
      some .matched
    else some .mismatched)
  else if pyStrip templateValue == pyStrip qcValue then some .matched
  else some .mismatched

end PoleDataProcessor


namespace PoleDataProcessor

/-- Node-table data carried by `scid_to_node`; the claims under study only
read identity-level fields, so two representative columns stand for the
record. -/
structure Node where
  pole_tag_tagtext : PyStr
  mr_note : PyStr
deriving DecidableEq

/-- One raw connection row: `node_id_1, node_id_2, connection_id,
span_distance`. -/
structure ConnRow where
  node_id_1 : PyStr
  node_id_2 : PyStr
  connection_id : PyStr
  span_distance : PyStr

/-- The connection info dictionary built by `_find_connection_data`. -/
structure ConnInfo where
  connection_id : PyStr
  span_distance : PyStr
deriving DecidableEq

def lookupAssoc {α : Type} (m : List (PyStr × α)) (k : PyStr) : Option α :=
  (m.find? (fun e => e.1 == k)).map (fun e => e.2)

/-- `_find_connection_data` (pole_data_processor.py:466-497, with no
`connection_span_map`): the first raw connection row whose endpoint SCIDs
match the pair in either direction. -/
def _find_connection_data (pole toPole : PyStr) (conns : List ConnRow)
    (nodeIdToScid : List (PyStr × PyStr)) : Option ConnInfo :=
  conns.findSome? (fun conn =>
    match lookupAssoc nodeIdToScid (pyStrip conn.node_id_1),
          lookupAssoc nodeIdToScid (pyStrip conn.node_id_2) with
    | some s1, some s2 =>
      if (s1 == pole && s2 == toPole) || (s1 == toPole && s2 == pole) then
        some ⟨conn.connection_id, conn.span_distance⟩
      else none
    | _, _ => none)

/-- One `(Pole, To Pole, excel_row)` triple read from the template. -/
structure TemplatePair where
  pole : PyStr
  toPole : PyStr
  excelRow : Nat

/-- The invalid-To-Pole test of the template loops
(pole_data_processor.py:291-297, 356-362). -/
def isInvalidToPole (toPole : PyStr) : Bool :=
  toPole.isEmpty || is_end_marker toPole || pyUpper toPole == strCodes "N/A"
    || toPole == strCodes "nan" || (pyStrip toPole).isEmpty

/-- Modelled `_create_output_row` (pole_data_processor.py:1153-1161 and
following): `None` exactly when the validity guard fires (blank normalized
identifiers or an END to-pole); the row body's enrichment (attachments,
sections, PDF data) is claim-irrelevant and represented by the basic
fields. -/
def _create_output_row (poleN toPoleN : PyStr) (node : Node) : Option Row :=
  if poleN.isEmpty || toPoleN.isEmpty || (pyStrip poleN).isEmpty
      || (pyStrip toPoleN).isEmpty || is_end_marker toPoleN then none
  else
    some [(strCodes "Pole", poleN), (strCodes "To Pole", toPoleN),
          (strCodes "Pole Tag", node.pole_tag_tagtext),
          (strCodes "Notes", node.mr_note)]

/-- Modelled `_create_pole_only_row` (pole_data_processor.py:406-464): always
produces a row (its `except` branch fires only on runtime exceptions, which
the embedding does not have); connection-specific fields are absent. -/
def _create_pole_only_row (poleN toPoleN : PyStr) (node : Node) : Option Row :=
  some [(strCodes "Pole", poleN), (strCodes "To Pole", toPoleN),
        (strCodes "Pole Tag", node.pole_tag_tagtext),
        (strCodes "Notes", node.mr_note)]

/-- Lines 324-331 of the template loop: overwrite `Pole`/`To Pole` with the
original template text and apply the END marker.  (The `_excel_row`
annotation, a non-string positioning hint, is not carried in the row
model.) -/
def appendMeta (p : TemplatePair) (row : Row) : Row :=
  _apply_end_marker
    (setField (setField row (strCodes "Pole") p.pole) (strCodes "To Pole") p.toPole)

/-- The per-pair body of `_process_multi_sheet_template_connections` /
`_process_template_based_connections` (pole_data_processor.py:282-339 and
347-404), with the default empty `ignore_scid_keywords` configuration for
`Utils.normalize_scid`. -/
def emitTemplatePair (conns : List ConnRow) (nodeIdToScid : List (PyStr × PyStr))
    (scidToNode : List (PyStr × Node)) (p : TemplatePair) : Option Row :=
  match lookupAssoc scidToNode (Utils.normalize_scid p.pole) with
  | none => none
  | some node =>
    match (if isInvalidToPole p.toPole then none
           else _find_connection_data (Utils.normalize_scid p.pole)
             (Utils.normalize_scid p.toPole) conns nodeIdToScid) with
    | some _ =>
      match _create_output_row (Utils.normalize_scid p.pole)
          (Utils.normalize_scid p.toPole) node with
      | none => none
      | some row => some (appendMeta p row)
    | none =>
      match _create_pole_only_row (Utils.normalize_scid p.pole)
          (Utils.normalize_scid p.toPole) node with
      | none => none
      | some row => some (appendMeta p row)

/-- `_process_multi_sheet_template_connections` (pole_data_processor.py:270-339)
over the flattened template pairs of all sheets. -/
def _process_multi_sheet_template_connections (conns : List ConnRow)
    (nodeIdToScid : List (PyStr × PyStr)) (scidToNode : List (PyStr × Node))
    (pairs : List TemplatePair) : List Row :=
  pairs.filterMap (emitTemplatePair conns nodeIdToScid scidToNode)

/-- `_process_template_based_connections` (pole_data_processor.py:341-404):
the single-sheet loop, identical in body. -/
def _process_template_based_connections (conns : List ConnRow)
    (nodeIdToScid : List (PyStr × PyStr)) (scidToNode : List (PyStr × Node))
    (pairs : List TemplatePair) : List Row :=
  pairs.filterMap (emitTemplatePair conns nodeIdToScid scidToNode)

end PoleDataProcessor

namespace Utils

/-- `Utils.decimal_feet_to_feet_format` (utils.py:245-270) on a numeric
input, as the (feet, inches) pair before string rendering. -/
def decimalFeetPair (q : ℚ) : ℤ × ℤ :=
  if pyRound ((round2 q - (pyTruncQ (round2 q) : ℚ)) * 12) = 12 then
    (pyTruncQ (round2 q) + 1, 0)
  else (pyTruncQ (round2 q), pyRound ((round2 q - (pyTruncQ (round2 q) : ℚ)) * 12))

/-- Decimal rendering of a non-negative integer. -/
def intToStr (z : ℤ) : PyStr := natToStr z.toNat

/-- `Utils.decimal_feet_to_feet_format` (utils.py:245-270):
`f"{feet}'{inches}\""`. -/
def decimal_feet_to_feet_format (q : ℚ) : PyStr :=
  intToStr (decimalFeetPair q).1 ++ [39] ++ intToStr (decimalFeetPair q).2 ++ [34]

/-- `Utils.decimal_feet_to_alden_format` (utils.py:272-297):
`f"{feet}ft {inches}in"`. -/
def decimal_feet_to_alden_format (q : ℚ) : PyStr :=
  intToStr (decimalFeetPair q).1 ++ strCodes "ft " ++ intToStr (decimalFeetPair q).2
    ++ strCodes "in"

end Utils


/-! Claim theorems. -/

/-- C3: For every Excel-derived span string, QC-declared span string, and
numeric tolerance: if both spans are numeric after stripping unit suffixes
and `abs(excel - qc) <= tolerance` the result is the QC span, if the
difference exceeds the tolerance the result is the Excel span, if exactly one
of the two is present that one is returned, and if neither is present the
result is blank. -/
theorem claim_C3_span_tolerance (ex qc : PyStr) (tol : ℚ) :
    (∀ e q, parseRatQ (pyStrip (ex.filter (fun c => !(c == 44 || c == 39)))) = some e →
      parseRatQ (pyStrip (qc.filter (fun c => !(c == 44 || c == 39)))) = some q →
      ex ≠ [] → qc ≠ [] →
      ((|e - q| ≤ tol → PoleDataProcessor._apply_span_length_tolerance ex qc tol = qc) ∧
       (tol < |e - q| → PoleDataProcessor._apply_span_length_tolerance ex qc tol = ex)))
    ∧ (ex ≠ [] → qc = [] → PoleDataProcessor._apply_span_length_tolerance ex qc tol = ex)
    ∧ (ex = [] → qc ≠ [] → PoleDataProcessor._apply_span_length_tolerance ex qc tol = qc)
    ∧ (ex = [] → qc = [] → PoleDataProcessor._apply_span_length_tolerance ex qc tol = []) := by
  refine ⟨?_, ?_, ?_, ?_⟩
  · intro e q he hq hex hqc
    unfold PoleDataProcessor._apply_span_length_tolerance
    rw [if_neg (by simp [List.isEmpty_iff, hex, hqc])]
    rw [he, hq]
    constructor
    · intro htol
      show (if |e - q| ≤ tol then qc else ex) = qc
      rw [if_pos htol]
    · intro htol
      show (if |e - q| ≤ tol then qc else ex) = ex
      rw [if_neg (not_le.mpr htol)]
  · intro hex hqc
    subst hqc
    unfold PoleDataProcessor._apply_span_length_tolerance
    rw [if_pos (by simp), if_pos (by simp [List.isEmpty_iff, hex])]
  · intro hex hqc
    subst hex
    unfold PoleDataProcessor._apply_span_length_tolerance
    rw [if_pos (by simp)]
    rw [if_neg (by simp)]
  · intro hex hqc
    subst hex; subst hqc
    rfl

/-- Witness for C3 at the spec's own examples: tolerance keeps QC at
difference 2, keeps Excel at difference 10, and passes through a lone QC
span. -/
theorem claim_C3_witness :
    PoleDataProcessor._apply_span_length_tolerance (strCodes "100") (strCodes "102") 3
        = strCodes "102"
    ∧ PoleDataProcessor._apply_span_length_tolerance (strCodes "100") (strCodes "110") 3
        = strCodes "100"
    ∧ PoleDataProcessor._apply_span_length_tolerance (strCodes "") (strCodes "102") 3
        = strCodes "102" :=
  ⟨((claim_C3_span_tolerance (strCodes "100") (strCodes "102") 3).1 100 102
      (by decide) (by decide) (by decide) (by decide)).1 (by decide),
   ((claim_C3_span_tolerance (strCodes "100") (strCodes "110") 3).1 100 110
      (by decide) (by decide) (by decide) (by decide)).2 (by decide),
   (claim_C3_span_tolerance (strCodes "") (strCodes "102") 3).2.2.1 rfl (by decide)⟩

namespace PoleDataProcessor

theorem lookupField_map_end (row : Row) (k : PyStr)
    (hk : pyContains k (strCodes "Midspan") = false) :
    lookupField (row.map (fun kv =>
        if pyContains kv.1 (strCodes "Midspan") then (kv.1, strCodes "END") else kv)) k
      = lookupField row k := by
  induction row with
  | nil => rfl
  | cons kv rest ih =>
    unfold lookupField at ih ⊢
    rw [List.map_cons]
    have hkey : (if pyContains kv.1 (strCodes "Midspan") then (kv.1, strCodes "END")
        else kv).1 = kv.1 := by split <;> rfl
    by_cases hb : (kv.1 == k) = true
    · have e1 : List.find? (fun kv => kv.1 == k)
          ((if pyContains kv.1 (strCodes "Midspan") = true then (kv.1, strCodes "END")
            else kv) :: rest.map (fun kv =>
              if pyContains kv.1 (strCodes "Midspan") = true then (kv.1, strCodes "END")
              else kv))
          = some (if pyContains kv.1 (strCodes "Midspan") = true then (kv.1, strCodes "END")
            else kv) :=
        List.find?_cons_of_pos _ (by simpa [hkey] using hb)
      have e2 : List.find? (fun kv => kv.1 == k) (kv :: rest) = some kv :=
        List.find?_cons_of_pos _ hb
      rw [e1, e2]
      have hbk : kv.1 = k := by simpa using hb
      have hcon : pyContains kv.1 (strCodes "Midspan") = false := by rw [hbk]; exact hk
      simp [hcon]
    · have e1 : List.find? (fun kv => kv.1 == k)
          ((if pyContains kv.1 (strCodes "Midspan") = true then (kv.1, strCodes "END")
            else kv) :: rest.map (fun kv =>
              if pyContains kv.1 (strCodes "Midspan") = true then (kv.1, strCodes "END")
              else kv))
          = List.find? (fun kv => kv.1 == k) (rest.map (fun kv =>
              if pyContains kv.1 (strCodes "Midspan") = true then (kv.1, strCodes "END")
              else kv)) :=
        List.find?_cons_of_neg _ (by simpa [hkey] using hb)
      have e2 : List.find? (fun kv => kv.1 == k) (kv :: rest)
          = List.find? (fun kv => kv.1 == k) rest :=
        List.find?_cons_of_neg _ hb
      rw [e1, e2]
      exact ih

theorem lookupField_map_set {row : Row} {k v : PyStr}
    (h : (lookupField row k).isSome) :
    lookupField (row.map (fun kv => if kv.1 == k then (kv.1, v) else kv)) k = some v := by
  induction row with
  | nil => simp [lookupField] at h
  | cons kv rest ih =>
    unfold lookupField at ih h ⊢
    rw [List.map_cons]
    have hkey : (if (kv.1 == k) = true then (kv.1, v) else kv).1 = kv.1 := by split <;> rfl
    by_cases hb : (kv.1 == k) = true
    · have e1 : List.find? (fun kv => kv.1 == k)
          ((if (kv.1 == k) = true then (kv.1, v) else kv) :: rest.map (fun kv =>
            if (kv.1 == k) = true then (kv.1, v) else kv))
          = some (if (kv.1 == k) = true then (kv.1, v) else kv) :=
        List.find?_cons_of_pos _ (by rw [hkey]; exact hb)
      rw [e1]
      simp [hb]
    · have e1 : List.find? (fun kv => kv.1 == k)
          ((if (kv.1 == k) = true then (kv.1, v) else kv) :: rest.map (fun kv =>
            if (kv.1 == k) = true then (kv.1, v) else kv))
          = List.find? (fun kv => kv.1 == k) (rest.map (fun kv =>
            if (kv.1 == k) = true then (kv.1, v) else kv)) :=
        List.find?_cons_of_neg _ (by rw [hkey]; exact hb)
      have e2 : List.find? (fun kv => kv.1 == k) (kv :: rest)
          = List.find? (fun kv => kv.1 == k) rest :=
        List.find?_cons_of_neg _ hb
      rw [e1]
      rw [e2] at h
      exact ih h

theorem lookupField_append_set {row : Row} {k v : PyStr}
    (h : lookupField row k = none) :
    lookupField (row ++ [(k, v)]) k = some v := by
  induction row with
  | nil => simp [lookupField]
  | cons kv rest ih =>
    unfold lookupField at ih h ⊢
    by_cases hb : (kv.1 == k) = true
    · have e2 : List.find? (fun kv => kv.1 == k) (kv :: rest) = some kv :=
        List.find?_cons_of_pos _ hb
      rw [e2] at h
      simp at h
    · have e2 : List.find? (fun kv => kv.1 == k) (kv :: rest)
          = List.find? (fun kv => kv.1 == k) rest :=
        List.find?_cons_of_neg _ hb
      have e3 : List.find? (fun kv => kv.1 == k) (kv :: (rest ++ [(k, v)]))
          = List.find? (fun kv => kv.1 == k) (rest ++ [(k, v)]) :=
        List.find?_cons_of_neg _ hb
      rw [e2] at h
      rw [List.cons_append, e3]
      exact ih h

theorem lookupField_setField_self (row : Row) (k v : PyStr) :
    lookupField (setField row k v) k = some v := by
  unfold setField
  split <;> rename_i hsome
  · exact lookupField_map_set hsome
  · exact lookupField_append_set (by
      cases hl : lookupField row k with
      | none => rfl
      | some w => rw [hl] at hsome; simp at hsome)

end PoleDataProcessor

/-- C4: For every output row whose `To Pole` value, after trimming whitespace
and uppercasing, equals `"END"`, the `Span Length` field equals the literal
string `"END"` and every field whose key contains the substring `"Midspan"`
equals the literal string `"END"`, regardless of any previously computed
values in those fields. -/
theorem claim_C4_end_marker (row : PoleDataProcessor.Row)
    (h : PoleDataProcessor.is_end_marker
      ((PoleDataProcessor.lookupField row (strCodes "To Pole")).getD []) = true) :
    PoleDataProcessor.lookupField (PoleDataProcessor._apply_end_marker row)
        (strCodes "Span Length") = some (strCodes "END")
    ∧ ∀ kv ∈ PoleDataProcessor._apply_end_marker row,
        pyContains kv.1 (strCodes "Midspan") = true → kv.2 = strCodes "END" := by
  cases hrow : row with
  | nil =>
    rw [hrow] at h
    exact absurd h (by decide)
  | cons kv0 rest =>
    rw [← hrow]
    have hne : row.isEmpty = false := by rw [hrow]; rfl
    unfold PoleDataProcessor._apply_end_marker
    rw [if_neg (by simp [hne]), if_neg (by simp [h])]
    constructor
    · rw [PoleDataProcessor.lookupField_map_end _ _ (by decide)]
      exact PoleDataProcessor.lookupField_setField_self row _ _
    · intro kv hkv hcon
      obtain ⟨kv', hkv', hfkv⟩ := List.mem_map.mp hkv
      by_cases hc : pyContains kv'.1 (strCodes "Midspan") = true
      · rw [if_pos hc] at hfkv
        rw [← hfkv]
      · rw [if_neg hc] at hfkv
        rw [← hfkv] at hcon
        exact absurd hcon hc

/-- Witness for C4: a concrete END row gets its span and midspan fields
forced to `"END"`. -/
theorem claim_C4_witness :
    PoleDataProcessor.lookupField
        (PoleDataProcessor._apply_end_marker
          [(strCodes "To Pole", strCodes " end "), (strCodes "Span Length", strCodes "123"),
           (strCodes "comm1_Midspan", strCodes "10' 0\"")])
        (strCodes "Span Length") = some (strCodes "END")
    ∧ ∀ kv ∈ PoleDataProcessor._apply_end_marker
          [(strCodes "To Pole", strCodes " end "), (strCodes "Span Length", strCodes "123"),
           (strCodes "comm1_Midspan", strCodes "10' 0\"")],
        pyContains kv.1 (strCodes "Midspan") = true → kv.2 = strCodes "END" :=
  claim_C4_end_marker _ (by decide)

/-- Counterexample to C9 as stated: a candidate comm attachment height that is
a member of the QC value's comma-split set, but not equal to the whole QC
string, is classified as a Mismatch by the comm attachment-height comparison
(which compares whole strings only). -/
theorem claim_C9_counterexample :
    PoleDataProcessor._compare_comm_attachment_height (strCodes "21' 0\"")
        (strCodes "22' 0\", 21' 0\"") = some .mismatched
    ∧ ((PoleDataProcessor.pySplitComma (pyStrip (strCodes "22' 0\", 21' 0\""))).map
        pyStrip).contains (pyStrip (strCodes "21' 0\"")) = true := by
  constructor
  · decide
  · decide

/-- C9 (amended): in the QC field-by-field comparison, the comma-split
membership rule applies to the comm midspan-height comparisons; the comm
attachment-height comparisons classify a candidate as a Match only on
whole-string equality of the stripped values. -/
theorem claim_C9_membership_match_amended (t qc : PyStr) (ht : t ≠ []) (hq : qc ≠ []) :
    (PoleDataProcessor._compare_comm_attachment_height t qc = some .matched ↔
      pyStrip t = pyStrip qc)
    ∧ (pyContains (pyStrip qc) [44] = true →
      (PoleDataProcessor._compare_comm_midspan_height t qc = some .matched ↔
        ((PoleDataProcessor.pySplitComma (pyStrip qc)).map pyStrip).contains
          (pyStrip t) = true)) := by
  constructor
  · unfold PoleDataProcessor._compare_comm_attachment_height
    rw [if_neg (by simp [List.isEmpty_iff, hq]), if_neg (by simp [List.isEmpty_iff, ht])]
    constructor
    · intro h
      by_cases he : (pyStrip t == pyStrip qc) = true
      · simpa using he
      · rw [if_neg he] at h
        simp at h
    · intro h
      rw [if_pos (by simpa using h)]
  · intro hcomma
    unfold PoleDataProcessor._compare_comm_midspan_height
    rw [if_neg (by simp [List.isEmpty_iff, hq]), if_neg (by simp [List.isEmpty_iff, ht]),
      if_pos hcomma]
    constructor
    · intro h
      by_cases hm : ((PoleDataProcessor.pySplitComma (pyStrip qc)).map pyStrip).contains
          (pyStrip t) = true
      · exact hm
      · rw [if_neg hm] at h
        simp at h
    · intro h
      rw [if_pos h]

/-- Witness for C9 (amended) at a concrete comma-joined QC value. -/
theorem claim_C9_witness :
    (PoleDataProcessor._compare_comm_attachment_height (strCodes "21' 0\"")
        (strCodes "21' 0\"") = some .matched ↔
      pyStrip (strCodes "21' 0\"") = pyStrip (strCodes "21' 0\""))
    ∧ (PoleDataProcessor._compare_comm_midspan_height (strCodes "21' 0\"")
        (strCodes "22' 0\", 21' 0\"") = some .matched ↔
      ((PoleDataProcessor.pySplitComma (pyStrip (strCodes "22' 0\", 21' 0\""))).map
        pyStrip).contains (pyStrip (strCodes "21' 0\"")) = true) :=
  ⟨(claim_C9_membership_match_amended (strCodes "21' 0\"") (strCodes "21' 0\"")
      (by decide) (by decide)).1,
   (claim_C9_membership_match_amended (strCodes "21' 0\"") (strCodes "22' 0\", 21' 0\"")
      (by decide) (by decide)).2 (by decide)⟩

/-- Counterexample to C7 as stated: normalization is not idempotent on every
string.  Each pass strips only one leading apostrophe, so `"''"` normalizes
to `"'"` and only then to `""`; and a leading apostrophe can shield inner
whitespace from the first pass, so `"' 1.0"` normalizes to `"1.0"` through
the token path and only then to `"1"` through the numeric path. -/
theorem claim_C7_counterexample :
    (Utils.normalize_scid (strCodes "''") = strCodes "'"
      ∧ Utils.normalize_scid (Utils.normalize_scid (strCodes "''"))
          ≠ Utils.normalize_scid (strCodes "''"))
    ∧ (Utils.normalize_scid (strCodes "' 1.0") = strCodes "1.0"
      ∧ Utils.normalize_scid (Utils.normalize_scid (strCodes "' 1.0"))
          ≠ Utils.normalize_scid (strCodes "' 1.0")) := by
  exact ⟨⟨by decide, by decide⟩, ⟨by decide, by decide⟩⟩

/-- C7 (amended): identifier normalization is idempotent on every string
whose whitespace-stripped, apostrophe-stripped form neither begins with
whitespace nor with a further apostrophe — in particular on every string
that does not begin with an apostrophe after stripping, and on cleanly
quoted identifiers such as `"'123"`; and it strips leading zeros and a
trailing `.0` decimal suffix, so `"00123"`, `"123"` and `"123.0"` all
normalize to the identical output `"123"`. -/
theorem claim_C7_normalize_idempotent_amended :
    (∀ s : PyStr, pyStrip (Utils.dequote (pyStrip s)) = Utils.dequote (pyStrip s) →
      (Utils.dequote (pyStrip s)).head? ≠ some 39 →
      Utils.normalize_scid (Utils.normalize_scid s) = Utils.normalize_scid s)
    ∧ Utils.normalize_scid (strCodes "00123") = strCodes "123"
    ∧ Utils.normalize_scid (strCodes "123") = strCodes "123"
    ∧ Utils.normalize_scid (strCodes "123.0") = strCodes "123"
    ∧ Utils.normalize_scid (strCodes "'123") = strCodes "123" :=
  ⟨fun _ h1 h2 => Utils.normalize_scid_idem_of_clean_strip h1 h2,
   by decide, by decide, by decide, by decide⟩

/-- Witness for C7 (amended): idempotence applied at the apostrophe-led
concrete identifier `"'123"`, whose de-quoted form is clean. -/
theorem claim_C7_witness :
    (pyStrip (Utils.dequote (pyStrip (strCodes "'123")))
        = Utils.dequote (pyStrip (strCodes "'123"))
      ∧ (Utils.dequote (pyStrip (strCodes "'123"))).head? ≠ some 39)
    ∧ Utils.normalize_scid (Utils.normalize_scid (strCodes "'123"))
        = Utils.normalize_scid (strCodes "'123") :=
  ⟨⟨by decide, by decide⟩,
   claim_C7_normalize_idempotent_amended.1 (strCodes "'123") (by decide) (by decide)⟩

/-- C5: In power-attachment selection, a row whose matched keyword is
riser-like passes the candidate filter only if the row's company matches the
configured power company; in particular a blank-company `"Riser"` row is
excluded while a power-company `"Riser"` row is selected. -/
theorem claim_C5_riser_gate :
    (∀ (pc : PyStr) (rows : List AttachmentDataReader.KRow) x,
      x ∈ AttachmentDataReader.riserGate pc rows →
      AttachmentDataReader.requiresPowerCompany x.matched = true →
      AttachmentDataReader.companyMatchesPower pc x = true)
    ∧ (∀ y ∈ AttachmentDataReader.powerFinalCandidates (strCodes "Xcel Energy")
          [⟨strCodes "", strCodes "Riser", strCodes "150"⟩,
           ⟨strCodes "Xcel Energy", strCodes "Riser", strCodes "140"⟩]
          [strCodes "Secondary", strCodes "Riser"],
        y.krow.prow.row.company = strCodes "Xcel Energy")
    ∧ (AttachmentDataReader.find_power_attachment (strCodes "Xcel Energy")
          [⟨strCodes "", strCodes "Riser", strCodes "150"⟩,
           ⟨strCodes "Xcel Energy", strCodes "Riser", strCodes "140"⟩]
          [strCodes "Secondary", strCodes "Riser"]).isSome = true := by
  refine ⟨?_, by decide, by decide⟩
  intro pc rows x hx hreq
  have hp := List.of_mem_filter hx
  by_cases hc : AttachmentDataReader.companyMatchesPower pc x = true
  · exact hc
  · exfalso
    have hc' : AttachmentDataReader.companyMatchesPower pc x = false :=
      boolEqFalseOfNot hc
    rw [hreq, hc'] at hp
    simp at hp

/-- Witness for C5: the general riser gate applied to the concrete
power-company riser row, which survives the gate. -/
theorem claim_C5_witness :
    AttachmentDataReader.companyMatchesPower (strCodes "xcel energy")
      ⟨⟨⟨strCodes "Xcel Energy", strCodes "Riser", strCodes "140"⟩,
        strCodes "xcel energy", strCodes "riser"⟩, strCodes "Riser"⟩ = true :=
  claim_C5_riser_gate.1 (strCodes "xcel energy")
    [⟨⟨⟨strCodes "Xcel Energy", strCodes "Riser", strCodes "140"⟩,
      strCodes "xcel energy", strCodes "riser"⟩, strCodes "Riser"⟩]
    ⟨⟨⟨strCodes "Xcel Energy", strCodes "Riser", strCodes "140"⟩,
      strCodes "xcel energy", strCodes "riser"⟩, strCodes "Riser"⟩
    (by decide) (by decide)

namespace AttachmentDataReader

theorem foldl_min_spec (rs : List HRow) (r : HRow) :
    (rs.foldl (fun best y => if y.height < best.height then y else best) r) ∈ r :: rs
    ∧ (rs.foldl (fun best y => if y.height < best.height then y else best) r).height
        ≤ r.height
    ∧ ∀ y ∈ rs,
        (rs.foldl (fun best y => if y.height < best.height then y else best) r).height
          ≤ y.height := by
  induction rs generalizing r with
  | nil => exact ⟨List.mem_cons_self r [], le_refl _, by simp⟩
  | cons y ys ih =>
    simp only [List.foldl_cons]
    obtain ⟨hmem, hle, hall⟩ := ih (if y.height < r.height then y else r)
    have hstep_le_r : (if y.height < r.height then y else r).height ≤ r.height := by
      split
      · exact le_of_lt (by assumption)
      · exact le_refl _
    have hstep_le_y : (if y.height < r.height then y else r).height ≤ y.height := by
      split
      · exact le_refl _
      · exact le_of_not_lt (by assumption)
    refine ⟨?_, le_trans hle hstep_le_r, ?_⟩
    · rcases List.mem_cons.mp hmem with h | h
      · rw [h]
        split
        · exact List.mem_cons_of_mem r (List.mem_cons_self y ys)
        · exact List.mem_cons_self r _
      · exact List.mem_cons_of_mem r (List.mem_cons_of_mem y h)
    · intro z hz
      rcases List.mem_cons.mp hz with h | h
      · rw [h]
        exact le_trans hle hstep_le_y
      · exact hall z h

theorem argminFirst_spec {rows : List HRow} {x : HRow} (h : argminFirst rows = some x) :
    x ∈ rows ∧ ∀ y ∈ rows, x.height ≤ y.height := by
  cases rows with
  | nil => simp [argminFirst] at h
  | cons r rs =>
    unfold argminFirst at h
    simp only [Option.some.injEq] at h
    obtain ⟨hmem, hle, hall⟩ := foldl_min_spec rs r
    rw [h] at hmem hle hall
    refine ⟨hmem, ?_⟩
    intro y hy
    rcases List.mem_cons.mp hy with hy | hy
    · rw [hy]; exact hle
    · exact hall y hy

theorem powerFinalCandidates_nil_of_df_nil (pc : PyStr) (kws : List PyStr) :
    powerFinalCandidates pc [] kws = [] := by
  unfold powerFinalCandidates stripRows companyCandidates keywordFilter attachKeywords
    riserGate heightRows
  simp

theorem powerFinalCandidates_nil_of_kmap_nil (pc : PyStr) (df : List AttRow)
    (kws : List PyStr) (h : powerKeywordMap kws = []) :
    powerFinalCandidates pc df kws = [] := by
  unfold powerFinalCandidates
  rw [h]
  have h2 : keywordFilter [] (companyCandidates (pyLower (pyStrip pc)) (stripRows df))
      = [] := by
    unfold keywordFilter
    apply List.filter_eq_nil_iff.mpr
    intro a _
    simp [List.any_nil]
  rw [h2]
  rfl

/-- C6: power-attachment selection returns the candidate row with the minimum
parseable positive height together with its matched keyword as the power
type; with no candidates, or none with a positive parseable height, the
result is absent and the power output fields of `_calculate_power_heights`
are blank rather than an error being raised. -/
theorem claim_C6_power_selection (pc : PyStr) (df : List AttRow) (kws : List PyStr) :
    (∀ r, find_power_attachment pc df kws = some r →
      ∃ x ∈ powerFinalCandidates pc df kws,
        0 < x.height ∧ r.keyword = x.krow.matched ∧ r.height_decimal = x.height / 12
        ∧ ∀ y ∈ powerFinalCandidates pc df kws, x.height ≤ y.height)
    ∧ (find_power_attachment pc df kws = none ↔ powerFinalCandidates pc df kws = [])
    ∧ (∀ (pm : List (ℚ × PyStr)) (ts : List ℚ),
        (PoleDataProcessor._calculate_power_heights [] pm ts).1 = []
        ∧ (PoleDataProcessor._calculate_power_heights [] pm ts).2.2 = []
        ∧ (pm = [] → (PoleDataProcessor._calculate_power_heights [] pm ts).2.1 = [])) := by
  refine ⟨?_, ?_, ?_⟩
  · intro r hr
    unfold find_power_attachment at hr
    split at hr
    · exact absurd hr (by simp)
    · split at hr
      · exact absurd hr (by simp)
      · split at hr
        · exact absurd hr (by simp)
        · rename_i x harg
          simp only [Option.some.injEq] at hr
          obtain ⟨hmem, hmin⟩ := argminFirst_spec harg
          refine ⟨x, hmem, ?_, ?_, ?_, hmin⟩
          · have : x ∈ (heightRows (riserGate (pyLower (pyStrip pc))
                (attachKeywords (powerKeywordMap kws)
                  (keywordFilter (powerKeywordMap kws)
                    (companyCandidates (pyLower (pyStrip pc)) (stripRows df)))))) := hmem
            unfold heightRows at this
            have := List.of_mem_filter this
            simpa using this
          · rw [← hr]
          · rw [← hr]
  · constructor
    · intro h
      unfold find_power_attachment at h
      split at h
      · rename_i hdf
        have : df = [] := by simpa [List.isEmpty_iff] using hdf
        rw [this]
        exact powerFinalCandidates_nil_of_df_nil pc kws
      · split at h
        · rename_i hkm
          exact powerFinalCandidates_nil_of_kmap_nil pc df kws
            (by simpa [List.isEmpty_iff] using hkm)
        · split at h
          · rename_i harg
            cases hfc : powerFinalCandidates pc df kws with
            | nil => rfl
            | cons a l =>
              rw [hfc] at harg
              simp [argminFirst] at harg
          · exact absurd h (by simp)
    · intro h
      unfold find_power_attachment
      split
      · rfl
      · split
        · rfl
        · rw [h]
          rfl
  · intro pm ts
    refine ⟨rfl, rfl, ?_⟩
    intro hpm
    rw [hpm]
    rfl

/-- Witness for C6: the minimum-height selection applied to a concrete pole
with two power candidates, and the blank outputs on an empty candidate
list. -/
theorem claim_C6_witness :
    (∃ x ∈ AttachmentDataReader.powerFinalCandidates (strCodes "Xcel Energy")
        [⟨strCodes "Xcel Energy", strCodes "Secondary", strCodes "180"⟩,
         ⟨strCodes "", strCodes "Secondary Drip Loop", strCodes "168"⟩]
        [strCodes "Secondary", strCodes "Secondary Drip Loop"],
      0 < x.height
      ∧ (strCodes "Secondary Drip Loop") = x.krow.matched
      ∧ (14 : ℚ) = x.height / 12
      ∧ ∀ y ∈ AttachmentDataReader.powerFinalCandidates (strCodes "Xcel Energy")
          [⟨strCodes "Xcel Energy", strCodes "Secondary", strCodes "180"⟩,
           ⟨strCodes "", strCodes "Secondary Drip Loop", strCodes "168"⟩]
          [strCodes "Secondary", strCodes "Secondary Drip Loop"],
          x.height ≤ y.height)
    ∧ (AttachmentDataReader.find_power_attachment (strCodes "Xcel Energy") []
        [strCodes "Secondary"] = none
       ↔ AttachmentDataReader.powerFinalCandidates (strCodes "Xcel Energy") []
          [strCodes "Secondary"] = []) := by
  constructor
  · have h := (claim_C6_power_selection (strCodes "Xcel Energy")
      [⟨strCodes "Xcel Energy", strCodes "Secondary", strCodes "180"⟩,
       ⟨strCodes "", strCodes "Secondary Drip Loop", strCodes "168"⟩]
      [strCodes "Secondary", strCodes "Secondary Drip Loop"]).1
      { height := inchesToFeetFormatInt 168, height_decimal := 14,
        company := strCodes "", measured := strCodes "Secondary Drip Loop",
        keyword := strCodes "Secondary Drip Loop" } (by decide)
    obtain ⟨x, hx, hpos, hkw, hdec, hmin⟩ := h
    exact ⟨x, hx, hpos, hkw, hdec, hmin⟩
  · exact (claim_C6_power_selection (strCodes "Xcel Energy") []
      [strCodes "Secondary"]).2.1

end AttachmentDataReader

namespace PoleDataProcessor

instance instTotalDescQ3 : IsTotal (ℚ × PyStr × PyStr) (fun a b => b.1 ≤ a.1) :=
  ⟨fun a b => le_total b.1 a.1⟩

instance instTransDescQ3 : IsTrans (ℚ × PyStr × PyStr) (fun a b => b.1 ≤ a.1) :=
  ⟨fun _ _ _ h1 h2 => le_trans h2 h1⟩

/-- C1: after the communication candidates of a pole are grouped by resolved
provider and the groups assigned to comm slots, the representative heights
are monotonically non-increasing from comm1 to comm4: every pair of
consecutive occupied slots is ordered. -/
theorem claim_C1_comm_slots_descending (cfg : Config)
    (df : List AttachmentDataReader.AttRow) :
    List.Pairwise (fun a b => b.1 ≤ a.1)
      (commAssignments cfg (processedAttachments cfg df)) := by
  unfold commAssignments
  have hs : List.Sorted (fun (a b : ℚ × PyStr × PyStr) => b.1 ≤ a.1)
      (List.insertionSort (fun a b => b.1 ≤ a.1)
        (providerHeights cfg (processedAttachments cfg df))) :=
    List.sorted_insertionSort _ _
  exact List.Pairwise.sublist (List.take_sublist 4 _) hs

theorem mem_foldl_metro (cfg : Config) :
    ∀ (groups : List (PyStr × List (ℚ × PyStr))) (acc : List (ℚ × PyStr)),
    (∀ x ∈ acc, x ∈ groups.foldl (fun acc g =>
      if !g.2.isEmpty && _match_metronet cfg g.1 then acc ++ g.2 else acc) acc)
    ∧ (∀ g ∈ groups, (!g.2.isEmpty && _match_metronet cfg g.1) = true →
        ∀ v ∈ g.2, v ∈ groups.foldl (fun acc g =>
          if !g.2.isEmpty && _match_metronet cfg g.1 then acc ++ g.2 else acc) acc) := by
  intro groups
  induction groups with
  | nil => exact fun acc => ⟨fun x hx => hx, by simp⟩
  | cons g gs ih =>
    intro acc
    simp only [List.foldl_cons]
    obtain ⟨ihAcc, ihGrp⟩ :=
      ih (if !g.2.isEmpty && _match_metronet cfg g.1 then acc ++ g.2 else acc)
    refine ⟨?_, ?_⟩
    · intro x hx
      apply ihAcc
      split
      · exact List.mem_append_left _ hx
      · exact hx
    · intro g' hg' hcond v hv
      rcases List.mem_cons.mp hg' with h | h
      · apply ihAcc
        rw [h] at hcond hv
        rw [if_pos hcond]
        exact List.mem_append_right _ hv
      · exact ihGrp g' h hcond v hv

/-- C2: the excluded/proposed-company provider is never assigned to a comm
slot — every assigned entry fails the `_match_metronet` test — and the
heights of every group that matches the proposed company are collected into
the dedicated `metronet_heights` list instead. -/
theorem claim_C2_proposed_company_excluded (cfg : Config)
    (df : List AttachmentDataReader.AttRow) :
    (∀ e ∈ commAssignments cfg (processedAttachments cfg df),
        _match_metronet cfg e.2.1 = false)
    ∧ (∀ g ∈ processedAttachments cfg df, _match_metronet cfg g.1 = true →
        ∀ v ∈ g.2, v ∈ metronetHeights cfg (processedAttachments cfg df)) := by
  constructor
  · intro e he
    have h1 : e ∈ List.insertionSort (fun a b => b.1 ≤ a.1)
        (providerHeights cfg (processedAttachments cfg df)) :=
      List.mem_of_mem_take he
    have h2 : e ∈ providerHeights cfg (processedAttachments cfg df) :=
      (List.mem_insertionSort (fun a b => b.1 ≤ a.1)).mp h1
    unfold providerHeights at h2
    obtain ⟨g, _, hf⟩ := List.mem_filterMap.mp h2
    split at hf
    · exact absurd hf (by simp)
    · split at hf
      · exact absurd hf (by simp)
      · rename_i hmm
        split at hf
        · exact absurd hf (by simp)
        · simp only [Option.some.injEq] at hf
          rw [← hf]
          exact Bool.not_eq_true _ ▸ (by exact fun hc => hmm hc)
  · intro g hg hmm v hv
    unfold metronetHeights
    have hne : g.2 ≠ [] := List.ne_nil_of_mem hv
    have hcond : (!g.2.isEmpty && _match_metronet cfg g.1) = true := by
      rw [hmm]
      cases h2 : g.2 with
      | nil => exact absurd h2 hne
      | cons a l => rfl
    exact (mem_foldl_metro cfg (processedAttachments cfg df) []).2 g hg hcond v hv

end PoleDataProcessor

namespace PoleDataProcessor

/-- C8 counterexample: a template declaring one (Pole, To Pole) pair whose
pole identifier resolves to no node data produces no output row at all —
the pair is silently dropped, not emitted as a pole-only row. -/
theorem claim_C8_counterexample :
    _process_multi_sheet_template_connections [] [] []
      [⟨strCodes "99", strCodes "100", 2⟩] = []
    ∧ _process_template_based_connections [] [] []
      [⟨strCodes "99", strCodes "100", 2⟩] = [] := by
  constructor <;> rfl

/-- C8 (amended): a template pair produces an output row exactly when its
normalized pole identifier resolves to node data and, in case a connection
is found for the pair, the normalized identifiers pass the output-row
validity guard (non-blank normalized Pole and To Pole, and a To Pole that
does not normalize to the END marker).  A pair whose pole resolves to no
node data is dropped; when node data exists and only the connection lookup
fails (or the To Pole is invalid), a pole-only row — carrying no
connection-derived data — is always emitted; and every emitted row of a
pair in the template appears in the output of both template-processing
functions. -/
theorem claim_C8_pole_only_fallback_amended (conns : List ConnRow)
    (nodeIdToScid : List (PyStr × PyStr)) (scidToNode : List (PyStr × Node))
    (pairs : List TemplatePair) (p : TemplatePair) (node : Node) :
    ((emitTemplatePair conns nodeIdToScid scidToNode p).isSome = true ↔
      ∃ nd, lookupAssoc scidToNode (Utils.normalize_scid p.pole) = some nd
        ∧ ((if isInvalidToPole p.toPole then none
            else _find_connection_data (Utils.normalize_scid p.pole)
              (Utils.normalize_scid p.toPole) conns nodeIdToScid) = none
          ∨ ((Utils.normalize_scid p.pole).isEmpty
              || (Utils.normalize_scid p.toPole).isEmpty
              || (pyStrip (Utils.normalize_scid p.pole)).isEmpty
              || (pyStrip (Utils.normalize_scid p.toPole)).isEmpty
              || is_end_marker (Utils.normalize_scid p.toPole)) = false))
    ∧ (lookupAssoc scidToNode (Utils.normalize_scid p.pole) = none →
      emitTemplatePair conns nodeIdToScid scidToNode p = none)
    ∧ (lookupAssoc scidToNode (Utils.normalize_scid p.pole) = some node →
        (if isInvalidToPole p.toPole then none
         else _find_connection_data (Utils.normalize_scid p.pole)
           (Utils.normalize_scid p.toPole) conns nodeIdToScid) = none →
        emitTemplatePair conns nodeIdToScid scidToNode p
          = some (appendMeta p
              [(strCodes "Pole", Utils.normalize_scid p.pole),
               (strCodes "To Pole", Utils.normalize_scid p.toPole),
               (strCodes "Pole Tag", node.pole_tag_tagtext),
               (strCodes "Notes", node.mr_note)]))
    ∧ (∀ row, p ∈ pairs → emitTemplatePair conns nodeIdToScid scidToNode p = some row →
        row ∈ _process_multi_sheet_template_connections conns nodeIdToScid scidToNode pairs
        ∧ row ∈ _process_template_based_connections conns nodeIdToScid scidToNode pairs) := by
  refine ⟨?_, ?_, ?_, ?_⟩
  · cases hl : lookupAssoc scidToNode (Utils.normalize_scid p.pole) with
    | none =>
      have he : emitTemplatePair conns nodeIdToScid scidToNode p = none := by
        unfold emitTemplatePair
        rw [hl]
      rw [he]
      constructor
      · intro habs
        simp at habs
      · rintro ⟨nd, hnd, h2⟩
        simp at hnd
    | some nd =>
      cases hc : (if isInvalidToPole p.toPole then none
          else _find_connection_data (Utils.normalize_scid p.pole)
            (Utils.normalize_scid p.toPole) conns nodeIdToScid) with
      | none =>
        have he : emitTemplatePair conns nodeIdToScid scidToNode p
            = some (appendMeta p
                [(strCodes "Pole", Utils.normalize_scid p.pole),
                 (strCodes "To Pole", Utils.normalize_scid p.toPole),
                 (strCodes "Pole Tag", nd.pole_tag_tagtext),
                 (strCodes "Notes", nd.mr_note)]) := by
          unfold emitTemplatePair
          rw [hl, hc]
          rfl
        rw [he]
        constructor
        · intro _
          exact ⟨nd, rfl, Or.inl rfl⟩
        · intro _
          rfl
      | some ci =>
        by_cases hg : ((Utils.normalize_scid p.pole).isEmpty
            || (Utils.normalize_scid p.toPole).isEmpty
            || (pyStrip (Utils.normalize_scid p.pole)).isEmpty
            || (pyStrip (Utils.normalize_scid p.toPole)).isEmpty
            || is_end_marker (Utils.normalize_scid p.toPole)) = true
        · have hrow : _create_output_row (Utils.normalize_scid p.pole)
              (Utils.normalize_scid p.toPole) nd = none := by
            unfold _create_output_row
            rw [if_pos hg]
          have he : emitTemplatePair conns nodeIdToScid scidToNode p = none := by
            unfold emitTemplatePair
            rw [hl, hc]
            show (match _create_output_row (Utils.normalize_scid p.pole)
                (Utils.normalize_scid p.toPole) nd with
              | none => none
              | some row => some (appendMeta p row)) = none
            rw [hrow]
          rw [he]
          constructor
          · intro habs
            simp at habs
          · rintro ⟨nd2, hnd2, hdisj⟩
            rcases hdisj with hno | hguard
            · exact absurd hno (by simp)
            · rw [hg] at hguard
              exact absurd hguard (by simp)
        · have hrow : _create_output_row (Utils.normalize_scid p.pole)
              (Utils.normalize_scid p.toPole) nd
              = some [(strCodes "Pole", Utils.normalize_scid p.pole),
                      (strCodes "To Pole", Utils.normalize_scid p.toPole),
                      (strCodes "Pole Tag", nd.pole_tag_tagtext),
                      (strCodes "Notes", nd.mr_note)] := by
            unfold _create_output_row
            rw [if_neg hg]
          have he : emitTemplatePair conns nodeIdToScid scidToNode p
              = some (appendMeta p
                  [(strCodes "Pole", Utils.normalize_scid p.pole),
                   (strCodes "To Pole", Utils.normalize_scid p.toPole),
                   (strCodes "Pole Tag", nd.pole_tag_tagtext),
                   (strCodes "Notes", nd.mr_note)]) := by
            unfold emitTemplatePair
            rw [hl, hc]
            show (match _create_output_row (Utils.normalize_scid p.pole)
                (Utils.normalize_scid p.toPole) nd with
              | none => none
              | some row => some (appendMeta p row))
              = some (appendMeta p
                  [(strCodes "Pole", Utils.normalize_scid p.pole),
                   (strCodes "To Pole", Utils.normalize_scid p.toPole),
                   (strCodes "Pole Tag", nd.pole_tag_tagtext),
                   (strCodes "Notes", nd.mr_note)])
            rw [hrow]
          rw [he]
          constructor
          · intro _
            exact ⟨nd, rfl, Or.inr (boolEqFalseOfNot hg)⟩
          · intro _
            rfl
  · intro h
    unfold emitTemplatePair
    rw [h]
  · intro hnode hconn
    unfold emitTemplatePair
    rw [hnode, hconn]
    rfl
  · intro row hp hemit
    constructor
    · exact List.mem_filterMap.mpr ⟨p, hp, hemit⟩
    · exact List.mem_filterMap.mpr ⟨p, hp, hemit⟩

end PoleDataProcessor

theorem pyRound_nonneg {q : ℚ} (h : 0 ≤ q) : 0 ≤ pyRound q := by
  have hf : (0:ℤ) ≤ ⌊q⌋ := Int.floor_nonneg.mpr h
  unfold pyRound
  split
  · exact hf
  · split
    · omega
    · split
      · exact hf
      · omega

theorem pyRound_le_floor_add_one (q : ℚ) : pyRound q ≤ ⌊q⌋ + 1 := by
  unfold pyRound
  split
  · omega
  · split
    · omega
    · split
      · omega
      · omega

namespace Utils

/-- C10: for every non-negative decimal-feet input the inches component of
the feet-inches pair rendered by `decimal_feet_to_feet_format` and
`decimal_feet_to_alden_format` lies between 0 and 11 inclusive, and when
the fractional part rounds to 12 inches the carry increments the feet
count and sets inches to 0. -/
theorem claim_C10_inches_range (q : ℚ) (h : 0 ≤ q) :
    (0 ≤ (decimalFeetPair q).2 ∧ (decimalFeetPair q).2 ≤ 11)
    ∧ (pyRound ((round2 q - (pyTruncQ (round2 q) : ℚ)) * 12) = 12 →
        decimalFeetPair q = (pyTruncQ (round2 q) + 1, 0)) := by
  have hr : 0 ≤ round2 q := by
    have h1 : 0 ≤ pyRound (q * 100) := pyRound_nonneg (by linarith)
    unfold round2
    have h2 : (0:ℚ) ≤ (pyRound (q * 100) : ℚ) := by exact_mod_cast h1
    linarith [div_nonneg h2 (by norm_num : (0:ℚ) ≤ 100)]
  have ht : pyTruncQ (round2 q) = ⌊round2 q⌋ := if_pos hr
  have hfrac0 : 0 ≤ round2 q - (⌊round2 q⌋ : ℚ) := sub_nonneg.mpr (Int.floor_le _)
  have hfrac1 : round2 q - (⌊round2 q⌋ : ℚ) < 1 := by
    have := Int.lt_floor_add_one (round2 q)
    linarith
  have h12a : 0 ≤ (round2 q - (⌊round2 q⌋ : ℚ)) * 12 := by linarith
  have h12b : (round2 q - (⌊round2 q⌋ : ℚ)) * 12 < 12 := by linarith
  have hi0 : 0 ≤ pyRound ((round2 q - (pyTruncQ (round2 q) : ℚ)) * 12) := by
    rw [ht]
    exact pyRound_nonneg h12a
  have hi1 : pyRound ((round2 q - (pyTruncQ (round2 q) : ℚ)) * 12) ≤ 12 := by
    rw [ht]
    have hfl : ⌊(round2 q - (⌊round2 q⌋ : ℚ)) * 12⌋ < 12 :=
      Int.floor_lt.mpr (by exact_mod_cast h12b)
    have := pyRound_le_floor_add_one ((round2 q - (⌊round2 q⌋ : ℚ)) * 12)
    omega
  unfold decimalFeetPair
  split
  · exact ⟨⟨le_refl 0, by norm_num⟩, fun _ => rfl⟩
  · rename_i hc
    refine ⟨⟨hi0, by omega⟩, fun hcc => absurd hcc hc⟩

/-- Witness for C10 at 21.99 decimal feet: the inches bound and the carry
at work — 21.99 rounds to 12 inches past 21 feet and formats as 22 feet 0
inches in both renderings, never as 21 feet 12 inches. -/
theorem claim_C10_witness :
    ((0 ≤ (decimalFeetPair (2199/100)).2 ∧ (decimalFeetPair (2199/100)).2 ≤ 11)
      ∧ (pyRound ((round2 (2199/100) - (pyTruncQ (round2 (2199/100)) : ℚ)) * 12) = 12 →
          decimalFeetPair (2199/100) = (pyTruncQ (round2 (2199/100)) + 1, 0)))
    ∧ decimal_feet_to_feet_format (2199/100) = strCodes "22'0\""
    ∧ decimal_feet_to_alden_format (2199/100) = strCodes "22ft 0in" := by
  refine ⟨claim_C10_inches_range (2199/100) (by norm_num), by decide, by decide⟩

end Utils
